import Mathlib

/-!
# Bybit connector: the local order book and its feed

A shallow embedding of `pkg/market` (`order.go`, `ticker.go`, `trade.go`,
`local_order_book.go`), of the order-book branch and the topic splitter of
`internal/parser` (`parser.go`), of the trade tape of `handler`
(`handler.go`) and of the subscriptions of `internal/socket` (`socket.go`),
followed by the properties proved about them.

Modelling conventions
* `float64` is the type `Float64`: not-a-number, an infinity, or a finite value,
  which is a rational; the comparisons are those of IEEE 754, false whenever an
  operand is not-a-number.
* `int64` identifiers are integers.
* `map[string]*OrderBookL2` is an association list with distinct keys
  (`AList`); the order of its entries carries no meaning.  A `range` over the
  map visits the entries in an order Go leaves unspecified, so every function
  that ranges over the map takes the visiting order as an argument, and the
  properties are stated for every order that is a permutation of the entries.
* `*OrderBookL2` values handed to the store are fresh (the parser allocates
  each of them), so a pointer is a value and the in-place mutation of
  `Update` is a replacement of the stored value.
* `time.Now()` is an argument.
* A run-time panic is `Except.error`.
-/

namespace market

/-- Go type `float64`: not-a-number, minus infinity, a finite value, or plus
infinity.  A finite value is a rational (every finite `float64` is one); the
two zeros are one value, which no comparison tells apart. -/
inductive Float64 where
  | NaN
  | NegInf
  | finite (q : ℚ)
  | PosInf
deriving DecidableEq

/-- A numeral is the finite value it denotes. -/
instance (n : Nat) : OfNat Float64 n :=
  ⟨Float64.finite (n : ℚ)⟩

/-- Go operator `<` on `float64`: false when an operand is not-a-number. -/
def Float64.lt : Float64 → Float64 → Bool
  | Float64.NaN, _ => false
  | _, Float64.NaN => false
  | _, Float64.NegInf => false
  | Float64.NegInf, _ => true
  | Float64.PosInf, _ => false
  | Float64.finite _, Float64.PosInf => true
  | Float64.finite p, Float64.finite q => decide (p < q)

/-- Go operator `>` on `float64`. -/
def Float64.gt (a b : Float64) : Bool :=
  Float64.lt b a

/-- Go operator `<=` on `float64`: false when an operand is not-a-number. -/
def Float64.le : Float64 → Float64 → Bool
  | Float64.NaN, _ => false
  | _, Float64.NaN => false
  | a, b => !(Float64.lt b a)

/-- Go operator `>=` on `float64`. -/
def Float64.ge (a b : Float64) : Bool :=
  Float64.le b a

/-- Level received from the exchange (`order.go`, `OrderBookL2`). -/
structure OrderBookL2 where
  ID : Int
  Price : Float64
  Side : String
  Size : Float64
  Symbol : String
deriving DecidableEq

/-- Incremental change (`order.go`, `OrderBookL2Delta`). -/
structure OrderBookL2Delta where
  Delete : List OrderBookL2
  Update : List OrderBookL2
  Insert : List OrderBookL2
deriving DecidableEq

/-- Transformed level (`order.go`, `Item`). -/
structure Item where
  Amount : Float64
  Price : Float64
deriving DecidableEq

/-- Book of one symbol (`order.go`, `OrderBook`). -/
structure OrderBook where
  Bids : List Item
  Asks : List Item
  Timestamp : Int
deriving DecidableEq

/-- Top of the book (`ticker.go`, `Ticker`). -/
structure Ticker where
  Bid : Float64
  BidSize : Float64
  Ask : Float64
  AskSize : Float64
  Time : Int
deriving DecidableEq

/-- Trade of the tape (`trade.go`, `Trade`); the time is a number. -/
structure Trade where
  Time : Int
  TradeTimeMs : String
  Symbol : String
  Side : String
  Size : Float64
  Price : Float64
  TickDirection : String
  TradeId : String
  CrossSeq : String
  IsBlockTrade : Bool
deriving DecidableEq

/-- Decimal rendering of an integer, `strconv.FormatInt(i, 10)`: the digits of
the absolute value, preceded by `-` for a negative number. -/
def FormatInt (i : Int) : String :=
  match i with
  | Int.ofNat n => Nat.repr n
  | Int.negSucc n => "-" ++ Nat.repr (n + 1)

/-- Map key of a level (`order.go`, `OrderBookL2.Key`). -/
def OrderBookL2.Key (o : OrderBookL2) : String :=
  FormatInt o.ID

/-- Go type `map[string]*OrderBookL2`. -/
abbrev LevelMap : Type :=
  AList (fun _ : String => OrderBookL2)

/-- The local book (`local_order_book.go`, `OderBookLocal`); the mutex has no
counterpart in a sequential model. -/
structure OderBookLocal where
  ob : LevelMap

/-- Constructor `NewOrderBookLocal`: an empty map. -/
def NewOrderBookLocal : OderBookLocal :=
  ⟨∅⟩

/-- Method `LoadSnapshot`: a fresh map receives every level under its key, in
list order; the returned error is always `nil` (`none`). -/
def OderBookLocal.LoadSnapshot (_o : OderBookLocal) (newOrderBook : List OrderBookL2) :
    OderBookLocal × Option String :=
  (⟨newOrderBook.foldl (fun m v => m.insert v.Key v) ∅⟩, none)

/-- One step of the first loop of `Update`: `delete(o.ob, e.Key())`. -/
def deleteStep (m : LevelMap) (e : OrderBookL2) : LevelMap :=
  m.erase e.Key

/-- One step of the second loop of `Update`: when the key is present the
stored level gets the entry's size and side. -/
def updateStep (m : LevelMap) (e : OrderBookL2) : LevelMap :=
  match m.lookup e.Key with
  | some v => m.insert e.Key { v with Size := e.Size, Side := e.Side }
  | none => m

/-- One step of the third loop of `Update`: `o.ob[e.Key()] = e`. -/
def insertStep (m : LevelMap) (e : OrderBookL2) : LevelMap :=
  m.insert e.Key e

/-- Method `Update`: the three loops, in the order of the source. -/
def OderBookLocal.Update (o : OderBookLocal) (delta : OrderBookL2Delta) : OderBookLocal :=
  ⟨delta.Insert.foldl insertStep
    (delta.Update.foldl updateStep (delta.Delete.foldl deleteStep o.ob))⟩

/-- Number of levels in the store, `len(o.ob)`. -/
def OderBookLocal.count (o : OderBookLocal) : Nat :=
  o.ob.keys.length

/-- The last level of a list that carries the identifier `id`. -/
def lastWithID (l : List OrderBookL2) (id : Int) : Option OrderBookL2 :=
  l.reverse.find? (fun v => decide (v.ID = id))

/-- A delta is valid for a store when its insert identifiers are absent from
the store and pairwise distinct, its delete identifiers are present and
pairwise distinct, its update identifiers are present, and the three lists
share no identifier. -/
def ValidDelta (o : OderBookLocal) (d : OrderBookL2Delta) : Prop :=
  (∀ e ∈ d.Insert, e.Key ∉ o.ob) ∧ (d.Insert.map (fun e => e.ID)).Nodup ∧
  (∀ e ∈ d.Delete, e.Key ∈ o.ob) ∧ (d.Delete.map (fun e => e.ID)).Nodup ∧
  (∀ e ∈ d.Update, e.Key ∈ o.ob) ∧
  (∀ a ∈ d.Insert, ∀ b ∈ d.Delete, a.ID ≠ b.ID) ∧
  (∀ a ∈ d.Insert, ∀ b ∈ d.Update, a.ID ≠ b.ID) ∧
  (∀ a ∈ d.Delete, ∀ b ∈ d.Update, a.ID ≠ b.ID)

/-- A sequence of deltas applied in order, each valid for the store it meets. -/
def ValidDeltas : OderBookLocal → List OrderBookL2Delta → Prop
  | _, [] => True
  | o, d :: ds => ValidDelta o d ∧ ValidDeltas (o.Update d) ds

/-- The deltas of a list applied in order with `Update`. -/
def applyDeltas (o : OderBookLocal) (ds : List OrderBookL2Delta) : OderBookLocal :=
  ds.foldl OderBookLocal.Update o

/-- Total number of insert entries of a list of deltas. -/
def totalInserts (ds : List OrderBookL2Delta) : Nat :=
  (ds.map (fun d => d.Insert.length)).sum

/-- Total number of delete entries of a list of deltas. -/
def totalDeletes (ds : List OrderBookL2Delta) : Nat :=
  (ds.map (fun d => d.Delete.length)).sum

/-- The levels held by the store, in the order of the association list. -/
def OderBookLocal.levels (o : OderBookLocal) : List OrderBookL2 :=
  o.ob.entries.map Sigma.snd

/-- A visiting order of `range o.ob`: any arrangement of the stored levels. -/
def OderBookLocal.Ranges (o : OderBookLocal) (iter : List OrderBookL2) : Prop :=
  iter.Perm o.levels

/-- Library function `sort.Slice` on a list: an insertion sort by `less`.  The
library runs an insertion sort on slices of at most 12 elements and a
pattern-defeating quicksort, which is not stable, on longer ones.  The
properties below hold of both: they use that the result is an arrangement of
the input, that it is ordered by `less` when `less` is a strict order on the
elements, or they concern slices of at most 12 elements. -/
def sortSlice {α : Type} (less : α → α → Bool) (xs : List α) : List α :=
  xs.insertionSort (fun a b => less b a = false)

/-- Body of the `range` loop of `GetOrderBook` for one level. -/
def appendLevel (ob : OrderBook) (v : OrderBookL2) : OrderBook :=
  if v.Side = "Buy" then
    { ob with Bids := ob.Bids ++ [{ Price := v.Price, Amount := v.Size }] }
  else if v.Side = "Sell" then
    { ob with Asks := ob.Asks ++ [{ Price := v.Price, Amount := v.Size }] }
  else ob

/-- The local `ob` of `GetOrderBook` after the loop, the two sorts and the
assignment of the timestamp (lines 15 to 39), for the visiting order `iter`. -/
def GetOrderBook.ob (iter : List OrderBookL2) (ob : OrderBook) (now : Int) : OrderBook :=
  let ob1 := iter.foldl appendLevel ob
  { Bids := sortSlice (fun a b => a.Price.gt b.Price) ob1.Bids
    Asks := sortSlice (fun a b => a.Price.lt b.Price) ob1.Asks
    Timestamp := now }

/-- Method `GetOrderBook` for the visiting order `iter`: the values of the
locals `ob` and `t` when the method returns, or the panic of `ob.Bids[0]` or
`ob.Asks[0]` on an empty side. -/
def GetOrderBook (iter : List OrderBookL2) (ob : OrderBook) (_t : Ticker) (now : Int) :
    Except String (OrderBook × Ticker) :=
  let ob2 := GetOrderBook.ob iter ob now
  match ob2.Bids with
  | [] => Except.error "index out of range [0] with length 0"
  | b :: _ =>
    match ob2.Asks with
    | [] => Except.error "index out of range [0] with length 0"
    | a :: _ =>
      Except.ok (ob2, { Bid := b.Price, BidSize := b.Amount, Ask := a.Price,
                        AskSize := a.Amount, Time := now })

/-- The item built from a level in the loop of `GetOrderBook`. -/
def toItem (v : OrderBookL2) : Item :=
  { Price := v.Price, Amount := v.Size }

/-- An `OrderBook` with no bids and no asks. -/
def emptyOrderBook : OrderBook :=
  { Bids := [], Asks := [], Timestamp := 0 }

/-- A zero `Ticker`. -/
def zeroTicker : Ticker :=
  { Bid := 0, BidSize := 0, Ask := 0, AskSize := 0, Time := 0 }

/-- Reading a digit string back: one step of the left-to-right evaluation. -/
def decodeStep (acc : Nat) (c : Char) : Nat :=
  acc * 10 + (c.toNat - 48)

/-! ### Sample data -/

/-- A bid at 100 of size 2 with identifier 1. -/
def bid100 : OrderBookL2 :=
  { ID := 1, Price := 100, Side := "Buy", Size := 2, Symbol := "BTCUSDT" }

/-- A second bid at 100, of size 5, with identifier 2. -/
def bid100b : OrderBookL2 :=
  { ID := 2, Price := 100, Side := "Buy", Size := 5, Symbol := "BTCUSDT" }

/-- An ask at 101 of size 3 with identifier 1000. -/
def ask101 : OrderBookL2 :=
  { ID := 1000, Price := 101, Side := "Sell", Size := 3, Symbol := "BTCUSDT" }

/-- An entry with identifier 1 and other values than `bid100`. -/
def other1 : OrderBookL2 :=
  { ID := 1, Price := 250, Side := "Sell", Size := 9, Symbol := "BTCUSDT" }

/-- The store that holds `bid100` alone. -/
def storeBid : OderBookLocal :=
  (NewOrderBookLocal.LoadSnapshot [bid100]).1

/-- The store into which `bid100` and then `bid100b` were inserted. -/
def storeTwoBids : OderBookLocal :=
  (NewOrderBookLocal.Update { Delete := [], Update := [], Insert := [bid100] }).Update
    { Delete := [], Update := [], Insert := [bid100b] }

/-- A delta that deletes the identifiers 1 and 2, updates 2 and inserts 1. -/
def deltaReinsert : OrderBookL2Delta :=
  { Delete := [bid100, bid100b], Update := [bid100b], Insert := [other1] }

/-- A delta with update entries only, for the identifiers 1 (present in
`storeTwoBids`) and 1000 (absent from it). -/
def deltaUpdates : OrderBookL2Delta :=
  { Delete := [], Update := [other1, ask101], Insert := [] }

/-- A delta that inserts an entry with identifier 1 and nothing else. -/
def deltaInsertOne : OrderBookL2Delta :=
  { Delete := [], Update := [], Insert := [other1] }

/-- Two deltas, each valid when its turn comes after the snapshot
`[bid100, ask101]`: the first inserts identifier 2, the second deletes
identifier 1 and updates identifier 2. -/
def validDeltas : List OrderBookL2Delta :=
  [{ Delete := [], Update := [], Insert := [bid100b] },
   { Delete := [bid100], Update := [bid100b], Insert := [] }]

/-- The store after the snapshot `[bid100, ask101]`. -/
def storeBidAsk : OderBookLocal :=
  (NewOrderBookLocal.LoadSnapshot [bid100, ask101]).1

/-- A bid at 99.5 of size 1 with identifier 2. -/
def bid995 : OrderBookL2 :=
  { ID := 2, Price := Float64.finite (199 / 2), Side := "Buy", Size := 1, Symbol := "BTCUSDT" }

/-- An ask at 100.5 of size 3 with identifier 1000. -/
def ask1005 : OrderBookL2 :=
  { ID := 1000, Price := Float64.finite (201 / 2), Side := "Sell", Size := 3, Symbol := "BTCUSDT" }

/-- The store after the snapshot of the example: bids (100.0, 2) and (99.5, 1),
ask (100.5, 3). -/
def storeExample : OderBookLocal :=
  (NewOrderBookLocal.LoadSnapshot [bid100, bid995, ask1005]).1

/-- The delta of the example: an update of the level at 100.0 to size 0. -/
def deltaZeroSize : OrderBookL2Delta :=
  { Delete := [], Update := [{ bid100 with Size := 0 }], Insert := [] }

/-- A bid of another symbol, with identifier 7. -/
def ethBid : OrderBookL2 :=
  { ID := 7, Price := 2000, Side := "Buy", Size := 4, Symbol := "ETHUSDT" }

/-- The store that holds `ethBid` alone. -/
def storeEth : OderBookLocal :=
  (NewOrderBookLocal.LoadSnapshot [ethBid]).1

/-- A bid at 1 of size 1 with identifier 1. -/
def bidOne : OrderBookL2 :=
  { ID := 1, Price := 1, Side := "Buy", Size := 1, Symbol := "BTCUSDT" }

/-- A bid whose price is not-a-number, with identifier 2: what the wire entry
`["NaN", "1"]` at index 1 decodes to, `fmt.Sscanf` reading "NaN" with `%f`. -/
def bidNaN : OrderBookL2 :=
  { ID := 2, Price := Float64.NaN, Side := "Buy", Size := 1, Symbol := "BTCUSDT" }

/-- A bid at 2 of size 1 with identifier 3. -/
def bidTwo : OrderBookL2 :=
  { ID := 3, Price := 2, Side := "Buy", Size := 1, Symbol := "BTCUSDT" }

/-- The store after the snapshot with the bids 1, NaN and 2 and the ask 101. -/
def storeNaN : OderBookLocal :=
  (NewOrderBookLocal.LoadSnapshot [bidOne, bidNaN, bidTwo, ask101]).1

end market

namespace parser

open market

/-- Field `Data` of the decoded order-book message (`parser.go`, lines 78 to 84). -/
structure OrderbookData where
  S : String
  B : List (List String)
  A : List (List String)
  U : Int
  Seq : Int
deriving DecidableEq

/-- The decoded order-book message `orderbookMsg` (`parser.go`, lines 74 to 86);
the field `Type` is `Typ` here. -/
structure OrderbookMsg where
  Topic : String
  Typ : String
  Ts : Int
  Data : OrderbookData
  Cts : Int
deriving DecidableEq

/-- The parser and its local book (`parser.go`, `MessageParser`). -/
structure MessageParser where
  OrderBookLocal : OderBookLocal

/-- Constructor `NewMessageParser`: a parser with an empty local book. -/
def NewMessageParser : MessageParser :=
  ⟨NewOrderBookLocal⟩

/-- What `parseOrderbook` returns as its first result: the snapshot, the delta
or the decoded message. -/
inductive Parsed where
  | snapshot (levels : List OrderBookL2)
  | delta (d : OrderBookL2Delta)
  | message (m : OrderbookMsg)
deriving DecidableEq

/-- Body of the four entry loops of `parseOrderbook`: an entry with fewer than
two fields, or whose price or size does not parse, is skipped; another one
is appended as a level whose identifier is its index plus `offset`.  The
helper `parseFloat` (a call of `fmt.Sscanf`) is an argument. -/
def parseEntry (parseFloat : String → Option Float64) (offset : Int) (side symbol : String)
    (acc : List OrderBookL2) (ie : Nat × List String) : List OrderBookL2 :=
  match ie.2 with
  | p :: z :: _ =>
    match parseFloat p with
    | none => acc
    | some price =>
      match parseFloat z with
      | none => acc
      | some size =>
        acc ++ [{ ID := (ie.1 : Int) + offset, Price := price, Side := side,
                  Size := size, Symbol := symbol }]
  | _ => acc

/-- The two loops over the bids and the asks of a message, shared by the
snapshot and the delta branch. -/
def parseLevels (parseFloat : String → Option Float64) (data : OrderbookData) (symbol : String) :
    List OrderBookL2 :=
  data.A.enum.foldl (parseEntry parseFloat 1000 "Sell" symbol)
    (data.B.enum.foldl (parseEntry parseFloat 1 "Buy" symbol) [])

/-- Method `parseOrderbook` on a decoded message: the parser afterwards and the
two results (value and error). -/
def parseOrderbook (parseFloat : String → Option Float64) (p : MessageParser)
    (orderbookMsg : OrderbookMsg) (msgType symbol : String) :
    MessageParser × Except String Parsed :=
  if msgType = "snapshot" then
    let snapshot := parseLevels parseFloat orderbookMsg.Data symbol
    match p.OrderBookLocal.LoadSnapshot snapshot with
    | (o, some err) => (⟨o⟩, Except.error ("failed to load orderbook snapshot: " ++ err))
    | (o, none) => (⟨o⟩, Except.ok (Parsed.snapshot snapshot))
  else if msgType = "delta" then
    let delta : OrderBookL2Delta :=
      { Delete := [], Update := parseLevels parseFloat orderbookMsg.Data symbol, Insert := [] }
    (⟨p.OrderBookLocal.Update delta⟩, Except.ok (Parsed.delta delta))
  else (p, Except.ok (Parsed.message orderbookMsg))

/-- The level that a wire entry stands for, in the words of the specification:
an entry that has at least two fields and whose price and size both parse
gives a level whose identifier is its wire index plus `offset`; every other
entry gives none. -/
def wellFormedLevel (parseFloat : String → Option Float64) (offset : Int) (side symbol : String)
    (i : Nat) (entry : List String) : Option OrderBookL2 :=
  if 2 ≤ entry.length then
    match parseFloat (entry.getD 0 ""), parseFloat (entry.getD 1 "") with
    | some price, some size =>
      some { ID := (i : Int) + offset, Price := price, Side := side, Size := size,
             Symbol := symbol }
    | _, _ => none
  else none

/-- The level list that a message stands for, in the words of the
specification: the levels of the well-formed bid entries, in wire order, with
side "Buy" and identifier index + 1, followed by the levels of the
well-formed ask entries, in wire order, with side "Sell" and identifier
index + 1000. -/
def expectedLevels (parseFloat : String → Option Float64) (data : OrderbookData) (symbol : String) :
    List OrderBookL2 :=
  data.B.enum.filterMap (fun ie => wellFormedLevel parseFloat 1 "Buy" symbol ie.1 ie.2) ++
    data.A.enum.filterMap (fun ie => wellFormedLevel parseFloat 1000 "Sell" symbol ie.1 ie.2)

/-- An entry is well formed when it has at least two fields and its price and
size both parse. -/
def WellFormed (parseFloat : String → Option Float64) (entry : List String) : Prop :=
  2 ≤ entry.length ∧ (parseFloat (entry.getD 0 "")).isSome = true ∧
    (parseFloat (entry.getD 1 "")).isSome = true

/-- The three locals of the loop of `splitTopic`. -/
structure SplitState where
  result : List String
  currentPart : String
  inDots : Bool
deriving DecidableEq

/-- Body of the loop of `splitTopic` for one character. -/
def splitStep (st : SplitState) (char : Char) : SplitState :=
  if char = '.' then
    if st.inDots then
      { st with currentPart := st.currentPart ++ String.singleton char }
    else
      let st1 : SplitState :=
        if st.currentPart ≠ "" then
          { st with result := st.result ++ [st.currentPart], currentPart := "" }
        else st
      { st1 with inDots := true }
  else
    { st with currentPart := st.currentPart ++ String.singleton char, inDots := false }

/-- The end of `splitTopic`: a non-empty current part is appended. -/
def splitFinish (st : SplitState) : List String :=
  if st.currentPart ≠ "" then st.result ++ [st.currentPart] else st.result

/-- Helper `splitTopic` (`parser.go`, lines 316 to 344). -/
def splitTopic (topic : String) : List String :=
  splitFinish (topic.data.foldl splitStep { result := [], currentPart := "", inDots := false })

/-- The values of `parseFloat` on the strings of the sample messages; every
other string is rejected. -/
def sampleParseFloat (s : String) : Option Float64 :=
  if s = "100" then some 100 else if s = "2" then some 2 else if s = "7" then some 7 else none

/-- A snapshot message with sequence number 1: one bid at 100 of size 2. -/
def sampleSnapshotMsg : OrderbookMsg :=
  { Topic := "orderbook.50.BTCUSDT", Typ := "snapshot", Ts := 0,
    Data := { S := "BTCUSDT", B := [["100", "2"]], A := [], U := 1, Seq := 1 }, Cts := 0 }

/-- A delta message with sequence number 5: the bid at 100 has size 7. -/
def sampleDeltaMsg : OrderbookMsg :=
  { Topic := "orderbook.50.BTCUSDT", Typ := "delta", Ts := 0,
    Data := { S := "BTCUSDT", B := [["100", "7"]], A := [], U := 5, Seq := 5 }, Cts := 0 }

/-- A snapshot message with malformed entries: the second bid has one field
and the size of the third bid does not parse. -/
def sampleMalformedMsg : OrderbookMsg :=
  { Topic := "orderbook.50.BTCUSDT", Typ := "snapshot", Ts := 0,
    Data := { S := "BTCUSDT", B := [["100", "2"], ["100"], ["100", "x"], ["7", "2"]],
              A := [["oops", "2"], ["100", "7", "extra"]], U := 1, Seq := 1 }, Cts := 0 }

/-- A snapshot message with one bid and one ask, both well formed. -/
def sampleBookMsg : OrderbookMsg :=
  { Topic := "orderbook.50.BTCUSDT", Typ := "snapshot", Ts := 0,
    Data := { S := "BTCUSDT", B := [["7", "2"]], A := [["100", "7"]], U := 1, Seq := 1 },
    Cts := 0 }

/-- A snapshot message with 1000 bids and one ask, all well formed. -/
def sampleDeepMsg : OrderbookMsg :=
  { Topic := "orderbook.1000.BTCUSDT", Typ := "snapshot", Ts := 0,
    Data := { S := "BTCUSDT", B := List.replicate 1000 ["7", "2"], A := [["100", "7"]],
              U := 1, Seq := 1 },
    Cts := 0 }

/-- The parser after the sample snapshot message. -/
def parserAfterSnapshot : MessageParser :=
  (parseOrderbook sampleParseFloat ⟨NewOrderBookLocal⟩ sampleSnapshotMsg "snapshot" "BTCUSDT").1

end parser

namespace handler

open market

/-- The handler of the messages (`handler.go`, `WebSocketHandler`); the maps
are association lists and a `nil` slice is the empty list. -/
structure WebSocketHandler where
  Parser : parser.MessageParser
  OrderBookMap : AList (fun _ : String => OrderBook)
  TickerMap : AList (fun _ : String => Ticker)
  TradeMap : AList (fun _ : String => List Trade)
  MaxTradeCount : Int

/-- Constructor `NewWebSocketHandler`: empty maps, the last 100 trades kept. -/
def NewWebSocketHandler : WebSocketHandler :=
  { Parser := parser.NewMessageParser, OrderBookMap := ∅, TickerMap := ∅, TradeMap := ∅,
    MaxTradeCount := 100 }

/-- The value of `h.TradeMap[symbol]`: the stored slice, or `nil` for a missing key. -/
def WebSocketHandler.trades (h : WebSocketHandler) (symbol : String) : List Trade :=
  (h.TradeMap.lookup symbol).getD []

/-- Method `addTrade`; the argument is a pointer, `none` for `nil`.  The trade
is appended to the slice of its symbol, and when the slice is then longer
than `MaxTradeCount` its first element is dropped. -/
def WebSocketHandler.addTrade (h : WebSocketHandler) (trade : Option Trade) :
    WebSocketHandler :=
  match trade with
  | none => h
  | some t =>
    if t.Symbol = "" then h
    else
      let h1 : WebSocketHandler :=
        { h with TradeMap := h.TradeMap.insert t.Symbol (h.trades t.Symbol ++ [t]) }
      if ((h1.trades t.Symbol).length : Int) > h1.MaxTradeCount then
        { h1 with TradeMap := h1.TradeMap.insert t.Symbol ((h1.trades t.Symbol).drop 1) }
      else h1

/-- The non-nil trades of a sequence of arguments that carry the symbol, in
arrival order. -/
def tradesWith (trades : List (Option Trade)) (symbol : String) : List Trade :=
  (trades.filterMap id).filter (fun t => decide (t.Symbol = symbol))

/-- The last `k` elements of a list (the whole list when it is shorter). -/
def lastN {α : Type} (k : Nat) (l : List α) : List α :=
  l.drop (l.length - k)

/-- A trade of the symbol BTCUSDT with the given identifier. -/
def sampleTrade (id : String) : Trade :=
  { Time := 0, TradeTimeMs := "0", Symbol := "BTCUSDT", Side := "Buy", Size := 1, Price := 100,
    TickDirection := "PlusTick", TradeId := id, CrossSeq := "0", IsBlockTrade := false }

end handler

namespace socket

open market

/-- Configuration (`config.go`, `Config`). -/
structure Config where
  BybitWSBaseURL : String
  BybitAPIKey : String
  BybitAPISecret : String
  BybitTestnet : Bool
  LogLevel : String
  ReconnectInterval : Int
  PingInterval : Int

/-- Request sent to the exchange (`socket.go`, `Message`); the field `Type` is
`Typ` here and the field `Data`, which no request sets, is left out. -/
structure Message where
  Topic : String
  Typ : String
  Ts : Int
  Op : String
  Args : List String
deriving DecidableEq

/-- Authentication request (`socket.go`, `AuthMessage`). -/
structure AuthMessage where
  Op : String
  Args : List String
deriving DecidableEq

/-- A value handed to `Conn.WriteJSON`. -/
inductive Frame where
  | message (m : Message)
  | auth (a : AuthMessage)
deriving DecidableEq

/-- The client (`socket.go`, `WebSocketClient`).  The connection is the list
of the values handed to `WriteJSON` on it so far, `none` for a `nil`
connection; the error handler is the list of the errors it received and a
flag telling whether it is non-nil; the message handler and the channel
`Done` play no part in the subscriptions. -/
structure WebSocketClient where
  Conn : Option (List Frame)
  URL : String
  APIKey : String
  APISecret : String
  Subscription : AList (fun _ : String => Bool)
  HasErrorHandler : Bool
  Errors : List String
  Config : Config
  IsAuthenticated : Bool

/-- What the outside world answers during a `Connect` and the resubscription
that follows: the error of the dial, the clock, the HMAC-SHA256 signature in
hexadecimal as a function of secret and payload, and the errors of the two
writes. -/
structure Network where
  dialErr : Option String
  now : Int
  sign : String → String → String
  authWriteErr : Option String
  subWriteErr : Option String

/-- Constructor `NewWebSocketClient`: no connection, no subscription. -/
def NewWebSocketClient (config : Config) (hasErrorHandler : Bool) : WebSocketClient :=
  { Conn := none, URL := config.BybitWSBaseURL, APIKey := config.BybitAPIKey,
    APISecret := config.BybitAPISecret, Subscription := ∅, HasErrorHandler := hasErrorHandler,
    Errors := [], Config := config, IsAuthenticated := false }

/-- Method `sendJSON`: an error on a `nil` connection, else the value goes to
`WriteJSON`, whose error `writeErr` is returned. -/
def WebSocketClient.sendJSON (c : WebSocketClient) (v : Frame) (writeErr : Option String) :
    WebSocketClient × Option String :=
  match c.Conn with
  | none => (c, some "connecting is nil")
  | some written => ({ c with Conn := some (written ++ [v]) }, writeErr)

/-- Method `authenticate`. -/
def WebSocketClient.authenticate (c : WebSocketClient) (net : Network) :
    WebSocketClient × Option String :=
  let expires := net.now * 1000 + 10000
  let signaturePayload := "GET/realtime" ++ FormatInt expires
  let signature := net.sign c.APISecret signaturePayload
  let auth : AuthMessage := { Op := "auth", Args := [c.APIKey, FormatInt expires, signature] }
  match c.sendJSON (Frame.auth auth) net.authWriteErr with
  | (c1, some err) => (c1, some err)
  | (c1, none) => ({ c1 with IsAuthenticated := true }, none)

/-- Method `Connect`: the dial replaces the connection (by `nil` on an error);
the two goroutines it starts are outside a sequential model; with both
credentials present it authenticates. -/
def WebSocketClient.Connect (c : WebSocketClient) (net : Network) :
    WebSocketClient × Option String :=
  match net.dialErr with
  | some err => ({ c with Conn := none }, some ("websocket dial error: " ++ err))
  | none =>
    let c1 : WebSocketClient := { c with Conn := some [] }
    if c1.APIKey ≠ "" ∧ c1.APISecret ≠ "" then
      match c1.authenticate net with
      | (c2, some err) => (c2, some ("authentication error: " ++ err))
      | (c2, none) => (c2, none)
    else (c1, none)

/-- Method `Subscibe`: every topic is recorded in `Subscription`, then the
request is sent. -/
def WebSocketClient.Subscibe (c : WebSocketClient) (topics : List String)
    (writeErr : Option String) : WebSocketClient × Option String :=
  let request : Message := { Topic := "", Typ := "", Ts := 0, Op := "subscribe", Args := topics }
  let c1 : WebSocketClient :=
    { c with Subscription := topics.foldl (fun m topic => m.insert topic true) c.Subscription }
  c1.sendJSON (Frame.message request) writeErr

/-- Method `Unsubscribe`: every topic is deleted from `Subscription`, then the
request is sent. -/
def WebSocketClient.Unsubscribe (c : WebSocketClient) (topics : List String)
    (writeErr : Option String) : WebSocketClient × Option String :=
  let request : Message :=
    { Topic := "", Typ := "", Ts := 0, Op := "unsubscribe", Args := topics }
  let c1 : WebSocketClient :=
    { c with Subscription := topics.foldl (fun m topic => m.erase topic) c.Subscription }
  c1.sendJSON (Frame.message request) writeErr

/-- Method `tyrReconnect` after its sleep, for the order `iter` in which the
range over `Subscription` visits the topics.  The old connection is closed
and replaced by `Connect`.  An error of the resubscription goes to the error
handler without a nil test, so a `nil` handler panics there. -/
def WebSocketClient.tyrReconnect (c : WebSocketClient) (iter : List String) (net : Network) :
    Except String WebSocketClient :=
  let subscriptions := iter
  match c.Connect net with
  | (c1, some err) =>
    if c1.HasErrorHandler then
      Except.ok { c1 with Errors := c1.Errors ++ ["reconnection error: " ++ err] }
    else Except.ok c1
  | (c1, none) =>
    if subscriptions.length > 0 then
      match c1.Subscibe subscriptions net.subWriteErr with
      | (c2, some err) =>
        if c2.HasErrorHandler then
          Except.ok { c2 with Errors := c2.Errors ++ ["resubsciption error: " ++ err] }
        else Except.error "invalid memory address or nil pointer dereference"
      | (c2, none) => Except.ok c2
    else Except.ok c1

/-- A call of `Subscibe` or `Unsubscribe`, with the error of its write. -/
inductive Call where
  | Subscibe (topics : List String) (writeErr : Option String)
  | Unsubscribe (topics : List String) (writeErr : Option String)
deriving DecidableEq

/-- The client after a call. -/
def Call.run (c : WebSocketClient) (call : Call) : WebSocketClient :=
  match call with
  | Call.Subscibe topics writeErr => (c.Subscibe topics writeErr).1
  | Call.Unsubscribe topics writeErr => (c.Unsubscribe topics writeErr).1

/-- A topic is active after a sequence of calls when some call subscribed it
and no later call unsubscribed it. -/
def Active (calls : List Call) (topic : String) : Prop :=
  ∃ (pre : List Call) (topics : List String) (w : Option String) (post : List Call),
    calls = pre ++ Call.Subscibe topics w :: post ∧ topic ∈ topics ∧
    ∀ (us : List String) (w2 : Option String), Call.Unsubscribe us w2 ∈ post → topic ∉ us

/-- The requests (not the authentication) handed to `WriteJSON` on the current
connection. -/
def WebSocketClient.requests (c : WebSocketClient) : List Message :=
  (c.Conn.getD []).filterMap (fun f => match f with
    | Frame.message m => some m
    | Frame.auth _ => none)

/-- The connection attempt of a `tyrReconnect` succeeds: the dial, the
authentication when the credentials call for one, and the write of the
resubscription return no error. -/
def Network.Succeeds (net : Network) (c : WebSocketClient) : Prop :=
  net.dialErr = none ∧ (c.APIKey = "" ∨ c.APISecret = "" ∨ net.authWriteErr = none) ∧
    net.subWriteErr = none

/-- The configuration of the test: the public endpoint, no credentials. -/
def sampleConfig : Config :=
  { BybitWSBaseURL := "ws://stream.bybit.com/v5/public/spot", BybitAPIKey := "",
    BybitAPISecret := "", BybitTestnet := false, LogLevel := "info", ReconnectInterval := 5,
    PingInterval := 20 }

/-- A network on which everything succeeds. -/
def sampleNetwork : Network :=
  { dialErr := none, now := 0, sign := fun _ _ => "", authWriteErr := none, subWriteErr := none }

/-- The calls of `TestWebSocketClient` after its `Connect`. -/
def testCalls : List Call :=
  [Call.Subscibe ["orderbook.1.BTCUSDT"] none, Call.Unsubscribe ["orderbook.1.BTCUSDT"] none,
   Call.Subscibe ["trade.BTCUSDT"] none]

/-- The client of `TestWebSocketClient` after its calls. -/
def testClient : WebSocketClient :=
  testCalls.foldl Call.run ((NewWebSocketClient sampleConfig true).Connect sampleNetwork).1

end socket

namespace market

/-! ## The key of a level -/

theorem digitChar_toNat (k : Nat) (h : k < 10) : (Nat.digitChar k).toNat - 48 = k := by
  interval_cases k <;> rfl

theorem decode_toDigitsCore (fuel : Nat) : ∀ (n : Nat) (ds : List Char), n < fuel →
    (Nat.toDigitsCore 10 fuel n ds).foldl decodeStep 0 = ds.foldl decodeStep n := by
  induction fuel with
  | zero => intro n ds h; omega
  | succ fuel ih =>
    intro n ds h
    unfold Nat.toDigitsCore
    simp only
    split
    · have hn : n < 10 := by omega
      simp only [List.foldl_cons, decodeStep,
        digitChar_toNat _ (Nat.mod_lt n (by decide : 10 > 0))]
      rw [Nat.mod_eq_of_lt hn]; simp
    · have hlt : n / 10 < fuel := by omega
      rw [ih (n / 10) _ hlt]
      simp only [List.foldl_cons, decodeStep,
        digitChar_toNat _ (Nat.mod_lt n (by decide : 10 > 0))]
      rw [Nat.div_add_mod' n 10]

theorem decode_repr (n : Nat) : (Nat.repr n).data.foldl decodeStep 0 = n := by
  unfold Nat.repr Nat.toDigits
  simp only [List.asString]
  rw [decode_toDigitsCore (n + 1) n [] (by omega)]
  rfl

theorem repr_injective {m n : Nat} (h : Nat.repr m = Nat.repr n) : m = n := by
  rw [← decode_repr m, ← decode_repr n, h]

theorem decode_minus (s : String) :
    ("-" ++ s).data.foldl decodeStep 0 = s.data.foldl decodeStep 0 := by
  have : ("-" ++ s).data = '-' :: s.data := rfl
  rw [this]
  rfl

theorem length_minus (s : String) : ("-" ++ s).length = s.length + 1 := by
  rw [String.length_append]
  have : "-".length = 1 := rfl
  omega

/-- The decimal rendering determines the integer. -/
theorem FormatInt_injective : Function.Injective FormatInt := by
  intro i j h
  cases i with
  | ofNat m =>
    cases j with
    | ofNat n =>
      simp only [FormatInt] at h
      rw [repr_injective h]
    | negSucc n =>
      simp only [FormatInt] at h
      have h1 := congrArg (fun s => s.data.foldl decodeStep 0) h
      simp only [decode_minus, decode_repr] at h1
      have h2 := congrArg String.length h
      rw [length_minus, h1] at h2
      omega
  | negSucc m =>
    cases j with
    | ofNat n =>
      simp only [FormatInt] at h
      have h1 := congrArg (fun s => s.data.foldl decodeStep 0) h
      simp only [decode_minus, decode_repr] at h1
      have h2 := congrArg String.length h
      rw [length_minus, h1] at h2
      omega
    | negSucc n =>
      simp only [FormatInt] at h
      have h1 := congrArg (fun s => s.data.foldl decodeStep 0) h
      simp only [decode_minus, decode_repr] at h1
      have : m = n := by omega
      rw [this]

theorem Key_eq_iff (v : OrderBookL2) (id : Int) : v.Key = FormatInt id ↔ v.ID = id :=
  ⟨fun h => FormatInt_injective h, fun h => by rw [OrderBookL2.Key, h]⟩

/-! ## The three loops of `Update` and the loop of `LoadSnapshot` -/

theorem lookup_insertStep (m : LevelMap) (e : OrderBookL2) (k : String) :
    (insertStep m e).lookup k = if e.Key = k then some e else m.lookup k := by
  unfold insertStep
  by_cases h : e.Key = k
  · subst h; simp [AList.lookup_insert]
  · rw [if_neg h, AList.lookup_insert_ne (Ne.symm h)]

theorem lookup_foldl_insertStep (l : List OrderBookL2) (m : LevelMap) (id : Int) :
    (l.foldl insertStep m).lookup (FormatInt id) =
      (lastWithID l id).or (m.lookup (FormatInt id)) := by
  induction l using List.reverseRecOn with
  | nil => simp [lastWithID]
  | append_singleton l e ih =>
    rw [List.foldl_append, List.foldl_cons, List.foldl_nil, lookup_insertStep, ih]
    unfold lastWithID
    rw [List.reverse_append, List.reverse_singleton, List.singleton_append, List.find?_cons]
    by_cases h : e.ID = id
    · have hk : e.Key = FormatInt id := (Key_eq_iff e id).2 h
      simp [h, hk]
    · have hk : ¬ e.Key = FormatInt id := fun hk => h ((Key_eq_iff e id).1 hk)
      simp [h, hk]

theorem mem_foldl_insertStep (l : List OrderBookL2) (m : LevelMap) (k : String) :
    k ∈ l.foldl insertStep m ↔ (∃ v ∈ l, v.Key = k) ∨ k ∈ m := by
  induction l using List.reverseRecOn with
  | nil => simp
  | append_singleton l e ih =>
    rw [List.foldl_append, List.foldl_cons, List.foldl_nil]
    show k ∈ AList.insert e.Key e (l.foldl insertStep m) ↔ _
    rw [AList.mem_insert, ih]
    constructor
    · rintro (h | ⟨v, hv, hk⟩ | h)
      · exact Or.inl ⟨e, by simp, h.symm⟩
      · exact Or.inl ⟨v, by simp [hv], hk⟩
      · exact Or.inr h
    · rintro (⟨v, hv, hk⟩ | h)
      · rcases List.mem_append.1 hv with hv | hv
        · exact Or.inr (Or.inl ⟨v, hv, hk⟩)
        · simp at hv; subst hv; exact Or.inl hk.symm
      · exact Or.inr (Or.inr h)

theorem lookup_deleteStep (m : LevelMap) (e : OrderBookL2) (k : String) :
    (deleteStep m e).lookup k = if e.Key = k then none else m.lookup k := by
  unfold deleteStep
  by_cases h : e.Key = k
  · subst h; simp [AList.lookup_erase]
  · rw [if_neg h, AList.lookup_erase_ne (Ne.symm h)]

theorem lookup_foldl_deleteStep_of_mem (l : List OrderBookL2) (m : LevelMap) (k : String)
    (h : ∃ e ∈ l, e.Key = k) : (l.foldl deleteStep m).lookup k = none := by
  induction l using List.reverseRecOn with
  | nil => simp at h
  | append_singleton l e ih =>
    rw [List.foldl_append, List.foldl_cons, List.foldl_nil, lookup_deleteStep]
    by_cases hk : e.Key = k
    · rw [if_pos hk]
    · rw [if_neg hk]
      apply ih
      obtain ⟨x, hx, hxk⟩ := h
      rcases List.mem_append.1 hx with hx | hx
      · exact ⟨x, hx, hxk⟩
      · simp at hx; subst hx; exact absurd hxk hk

theorem lookup_foldl_deleteStep_of_not_mem (l : List OrderBookL2) (m : LevelMap) (k : String)
    (h : ∀ e ∈ l, e.Key ≠ k) : (l.foldl deleteStep m).lookup k = m.lookup k := by
  induction l using List.reverseRecOn with
  | nil => rfl
  | append_singleton l e ih =>
    rw [List.foldl_append, List.foldl_cons, List.foldl_nil, lookup_deleteStep,
      if_neg (h e (by simp))]
    exact ih (fun x hx => h x (by simp [hx]))

theorem lookup_updateStep (m : LevelMap) (e : OrderBookL2) (k : String) :
    (updateStep m e).lookup k =
      if e.Key = k then
        (m.lookup k).map (fun v => { v with Size := e.Size, Side := e.Side })
      else m.lookup k := by
  unfold updateStep
  by_cases h : e.Key = k
  · subst h
    rw [if_pos rfl]
    cases hl : m.lookup e.Key with
    | none => simp [hl]
    | some v => simp [AList.lookup_insert]
  · rw [if_neg h]
    cases hl : m.lookup e.Key with
    | none => rfl
    | some v => exact AList.lookup_insert_ne (Ne.symm h)

theorem lookup_foldl_updateStep_none (l : List OrderBookL2) (m : LevelMap) (k : String)
    (h : m.lookup k = none) : (l.foldl updateStep m).lookup k = none := by
  induction l using List.reverseRecOn with
  | nil => exact h
  | append_singleton l e ih =>
    rw [List.foldl_append, List.foldl_cons, List.foldl_nil, lookup_updateStep, ih]
    simp

theorem lookup_foldl_updateStep_of_not_mem (l : List OrderBookL2) (m : LevelMap) (k : String)
    (h : ∀ e ∈ l, e.Key ≠ k) : (l.foldl updateStep m).lookup k = m.lookup k := by
  induction l using List.reverseRecOn with
  | nil => rfl
  | append_singleton l e ih =>
    rw [List.foldl_append, List.foldl_cons, List.foldl_nil, lookup_updateStep,
      if_neg (h e (by simp))]
    exact ih (fun x hx => h x (by simp [hx]))

theorem lookup_foldl_updateStep_some (l : List OrderBookL2) (m : LevelMap) (k : String)
    (v : OrderBookL2) (h : m.lookup k = some v) :
    ∃ w, (l.foldl updateStep m).lookup k = some w ∧
      w.ID = v.ID ∧ w.Price = v.Price ∧ w.Symbol = v.Symbol := by
  induction l using List.reverseRecOn with
  | nil => exact ⟨v, h, rfl, rfl, rfl⟩
  | append_singleton l e ih =>
    obtain ⟨w, hw, h1, h2, h3⟩ := ih
    rw [List.foldl_append, List.foldl_cons, List.foldl_nil, lookup_updateStep, hw]
    by_cases hk : e.Key = k
    · rw [if_pos hk]
      exact ⟨_, rfl, h1, h2, h3⟩
    · rw [if_neg hk]
      exact ⟨w, rfl, h1, h2, h3⟩

theorem mem_iff_lookup_ne_none (m : LevelMap) (k : String) : k ∈ m ↔ m.lookup k ≠ none := by
  rw [Ne, AList.lookup_eq_none, not_not]

theorem mem_updateStep (m : LevelMap) (e : OrderBookL2) (k : String) :
    k ∈ updateStep m e ↔ k ∈ m := by
  rw [mem_iff_lookup_ne_none, mem_iff_lookup_ne_none, lookup_updateStep]
  by_cases hk : e.Key = k
  · rw [if_pos hk]
    cases m.lookup k <;> simp
  · rw [if_neg hk]

theorem mem_foldl_updateStep (l : List OrderBookL2) (m : LevelMap) (k : String) :
    k ∈ l.foldl updateStep m ↔ k ∈ m := by
  induction l using List.reverseRecOn with
  | nil => rfl
  | append_singleton l e ih =>
    rw [List.foldl_append, List.foldl_cons, List.foldl_nil, mem_updateStep, ih]

theorem updateStep_of_not_mem (m : LevelMap) (e : OrderBookL2) (h : e.Key ∉ m) :
    updateStep m e = m := by
  unfold updateStep
  rw [AList.lookup_eq_none.2 h]

theorem foldl_updateStep_filter (m0 : LevelMap) (l : List OrderBookL2) :
    ∀ m : LevelMap, (∀ k, k ∈ m ↔ k ∈ m0) →
      l.foldl updateStep m = (l.filter (fun e => decide (e.Key ∈ m0))).foldl updateStep m := by
  induction l with
  | nil => intro m _; rfl
  | cons e l ih =>
    intro m hm
    by_cases he : e.Key ∈ m0
    · rw [List.filter_cons_of_pos (by simpa using he), List.foldl_cons, List.foldl_cons]
      exact ih _ (fun k => by rw [mem_updateStep, hm])
    · rw [List.filter_cons_of_neg (by simpa using he), List.foldl_cons,
        updateStep_of_not_mem m e (fun h => he ((hm _).1 h))]
      exact ih m hm

theorem lastWithID_isSome (l : List OrderBookL2) (id : Int) (h : ∃ e ∈ l, e.ID = id) :
    (lastWithID l id).isSome = true := by
  obtain ⟨e, he, hid⟩ := h
  unfold lastWithID
  rw [List.find?_isSome]
  exact ⟨e, List.mem_reverse.2 he, by simpa using hid⟩

theorem lastWithID_eq_none (l : List OrderBookL2) (id : Int) (h : ∀ e ∈ l, e.ID ≠ id) :
    lastWithID l id = none := by
  unfold lastWithID
  rw [List.find?_eq_none]
  intro x hx
  simpa using h x (List.mem_reverse.1 hx)

theorem lastWithID_some (l : List OrderBookL2) (id : Int) (e : OrderBookL2)
    (h : lastWithID l id = some e) : e ∈ l ∧ e.ID = id := by
  unfold lastWithID at h
  exact ⟨List.mem_reverse.1 (List.mem_of_find?_eq_some h), by simpa using List.find?_some h⟩

/-! ## Properties of `LoadSnapshot` and `Update` -/

/-- C1: for every prior store and every list of levels, `LoadSnapshot` returns
a nil error, the store afterwards holds exactly the keys of the identifiers
occurring in the list, and under each identifier the last level of the list
carrying it; the prior state has no influence on the result. -/
theorem LoadSnapshot_installs_levels (o : OderBookLocal) (levels : List OrderBookL2) :
    (o.LoadSnapshot levels).2 = none ∧
    (∀ k : String, k ∈ (o.LoadSnapshot levels).1.ob ↔ ∃ v ∈ levels, FormatInt v.ID = k) ∧
    (∀ id : Int, (o.LoadSnapshot levels).1.ob.lookup (FormatInt id) = lastWithID levels id) ∧
    (∀ o2 : OderBookLocal, o2.LoadSnapshot levels = o.LoadSnapshot levels) := by
  refine ⟨rfl, ?_, ?_, fun _ => rfl⟩
  · intro k
    show k ∈ levels.foldl insertStep ∅ ↔ _
    rw [mem_foldl_insertStep]
    simp [OrderBookL2.Key]
  · intro id
    show (levels.foldl insertStep ∅).lookup (FormatInt id) = _
    rw [lookup_foldl_insertStep]
    simp

theorem lookup_Update_of_insert (o : OderBookLocal) (delta : OrderBookL2Delta) (id : Int)
    (h : ∃ e ∈ delta.Insert, e.ID = id) :
    (o.Update delta).ob.lookup (FormatInt id) = lastWithID delta.Insert id ∧
      (lastWithID delta.Insert id).isSome = true := by
  have hs := lastWithID_isSome delta.Insert id h
  refine ⟨?_, hs⟩
  show (delta.Insert.foldl insertStep _).lookup (FormatInt id) = _
  rw [lookup_foldl_insertStep]
  cases hl : lastWithID delta.Insert id with
  | none => rw [hl] at hs; simp at hs
  | some e => rfl

/-- C2: `Update` deletes, then updates, then inserts.  An identifier that
occurs in the delete list and in the insert list is present afterwards with
the values of the (last) insert entry carrying it; an identifier that occurs
in the delete list and in the update list and not in the insert list is
absent afterwards. -/
theorem Update_deletes_then_updates_then_inserts (o : OderBookLocal)
    (delta : OrderBookL2Delta) (id : Int) :
    ((∃ e ∈ delta.Delete, e.ID = id) → (∃ e ∈ delta.Insert, e.ID = id) →
      (o.Update delta).ob.lookup (FormatInt id) = lastWithID delta.Insert id ∧
        (lastWithID delta.Insert id).isSome = true) ∧
    ((∃ e ∈ delta.Delete, e.ID = id) → (∃ e ∈ delta.Update, e.ID = id) →
      (∀ e ∈ delta.Insert, e.ID ≠ id) →
      (o.Update delta).ob.lookup (FormatInt id) = none ∧ FormatInt id ∉ (o.Update delta).ob) := by
  constructor
  · intro _ hi
    exact lookup_Update_of_insert o delta id hi
  · intro hd _ hi
    have hnone : (o.Update delta).ob.lookup (FormatInt id) = none := by
      show (delta.Insert.foldl insertStep _).lookup (FormatInt id) = _
      rw [lookup_foldl_insertStep, lastWithID_eq_none _ _ hi, Option.none_or]
      apply lookup_foldl_updateStep_none
      apply lookup_foldl_deleteStep_of_mem
      obtain ⟨e, he, hid⟩ := hd
      exact ⟨e, he, (Key_eq_iff e id).2 hid⟩
    exact ⟨hnone, AList.lookup_eq_none.1 hnone⟩

/-- C3: a delta that has only update entries leaves the set of keys of the
store as it was; every stored level keeps its identifier, price and symbol; a
level whose key no update entry carries is untouched; and the update entries
whose key is absent from the store can be dropped without changing the
result. -/
theorem Update_only_updates_frame (o : OderBookLocal) (delta : OrderBookL2Delta)
    (hd : delta.Delete = []) (hi : delta.Insert = []) :
    (∀ k : String, k ∈ (o.Update delta).ob ↔ k ∈ o.ob) ∧
    (∀ (k : String) (v : OrderBookL2), o.ob.lookup k = some v →
      ∃ w, (o.Update delta).ob.lookup k = some w ∧
        w.ID = v.ID ∧ w.Price = v.Price ∧ w.Symbol = v.Symbol) ∧
    (∀ k : String, (∀ e ∈ delta.Update, e.Key ≠ k) →
      (o.Update delta).ob.lookup k = o.ob.lookup k) ∧
    o.Update delta =
      o.Update { delta with Update := delta.Update.filter (fun e => decide (e.Key ∈ o.ob)) } := by
  have hU : (o.Update delta).ob = delta.Update.foldl updateStep o.ob := by
    unfold OderBookLocal.Update
    rw [hd, hi]
    rfl
  refine ⟨?_, ?_, ?_, ?_⟩
  · intro k
    rw [hU, mem_foldl_updateStep]
  · intro k v hv
    rw [hU]
    exact lookup_foldl_updateStep_some _ _ _ v hv
  · intro k hk
    rw [hU]
    exact lookup_foldl_updateStep_of_not_mem _ _ _ hk
  · unfold OderBookLocal.Update
    simp only [hd, hi, List.foldl_nil]
    rw [← foldl_updateStep_filter o.ob delta.Update o.ob (fun _ => Iff.rfl)]

/-- C4, as amended: an insert entry is never skipped.  After `Update` the
store holds, under the identifier of every insert entry, the last insert entry
of the delta carrying that identifier, whatever was stored under it before. -/
theorem Update_insert_overwrites (o : OderBookLocal) (delta : OrderBookL2Delta)
    (e : OrderBookL2) (he : e ∈ delta.Insert) :
    (o.Update delta).ob.lookup e.Key = lastWithID delta.Insert e.ID ∧
      (lastWithID delta.Insert e.ID).isSome = true :=
  lookup_Update_of_insert o delta e.ID ⟨e, he, rfl⟩

/-! ## The number of levels -/

theorem mem_foldl_deleteStep (l : List OrderBookL2) (m : LevelMap) (k : String)
    (h : k ∈ l.foldl deleteStep m) : k ∈ m := by
  induction l using List.reverseRecOn with
  | nil => exact h
  | append_singleton l e ih =>
    rw [List.foldl_append, List.foldl_cons, List.foldl_nil] at h
    exact ih (AList.mem_erase.1 h).2

theorem key_ne_of_ID_not_mem (e x : OrderBookL2) (l : List OrderBookL2)
    (h : e.ID ∉ l.map (fun v => v.ID)) (hx : x ∈ l) : x.Key ≠ e.Key := by
  intro hk
  apply h
  rw [List.mem_map]
  exact ⟨x, hx, FormatInt_injective hk⟩

theorem length_keys_foldl_deleteStep (l : List OrderBookL2) :
    ∀ m : LevelMap, (∀ e ∈ l, e.Key ∈ m) → (l.map (fun e => e.ID)).Nodup →
      (l.foldl deleteStep m).keys.length + l.length = m.keys.length := by
  induction l with
  | nil => intro m _ _; rfl
  | cons e l ih =>
    intro m hm hnd
    rw [List.map_cons, List.nodup_cons] at hnd
    have he : e.Key ∈ m.keys := AList.mem_keys.1 (hm e (by simp))
    have h1 : (deleteStep m e).keys.length + 1 = m.keys.length := by
      unfold deleteStep
      rw [AList.keys_erase, List.length_erase_of_mem he]
      have : 0 < m.keys.length := List.length_pos_of_mem he
      omega
    have h2 := ih (deleteStep m e)
      (fun x hx => AList.mem_erase.2
        ⟨key_ne_of_ID_not_mem e x l hnd.1 hx, hm x (by simp [hx])⟩) hnd.2
    rw [List.foldl_cons, List.length_cons]
    omega

theorem length_keys_updateStep (m : LevelMap) (e : OrderBookL2) :
    (updateStep m e).keys.length = m.keys.length := by
  unfold updateStep
  cases hl : m.lookup e.Key with
  | none => rfl
  | some v =>
    have he : e.Key ∈ m.keys := by
      rw [← AList.mem_keys, mem_iff_lookup_ne_none, hl]
      simp
    show (AList.insert e.Key _ m).keys.length = _
    rw [AList.keys_insert, List.length_cons, List.length_erase_of_mem he]
    have : 0 < m.keys.length := List.length_pos_of_mem he
    omega

theorem length_keys_foldl_updateStep (l : List OrderBookL2) (m : LevelMap) :
    (l.foldl updateStep m).keys.length = m.keys.length := by
  induction l using List.reverseRecOn with
  | nil => rfl
  | append_singleton l e ih =>
    rw [List.foldl_append, List.foldl_cons, List.foldl_nil, length_keys_updateStep, ih]

theorem length_keys_foldl_insertStep (l : List OrderBookL2) :
    ∀ m : LevelMap, (∀ e ∈ l, e.Key ∉ m) → (l.map (fun e => e.ID)).Nodup →
      (l.foldl insertStep m).keys.length = m.keys.length + l.length := by
  induction l with
  | nil => intro m _ _; rfl
  | cons e l ih =>
    intro m hm hnd
    rw [List.map_cons, List.nodup_cons] at hnd
    have he : e.Key ∉ m.keys := fun h => hm e (by simp) (AList.mem_keys.2 h)
    have h1 : (insertStep m e).keys.length = m.keys.length + 1 := by
      unfold insertStep
      rw [AList.keys_insert, List.length_cons, List.erase_of_not_mem he]
    have h2 := ih (insertStep m e)
      (fun x hx hmem => by
        rcases (AList.mem_insert m).1 hmem with h | h
        · exact key_ne_of_ID_not_mem e x l hnd.1 hx h
        · exact hm x (by simp [hx]) h) hnd.2
    rw [List.foldl_cons, List.length_cons, h2, h1]
    omega

theorem count_Update_of_valid (o : OderBookLocal) (d : OrderBookL2Delta)
    (h : ValidDelta o d) :
    (o.Update d).count + d.Delete.length = o.count + d.Insert.length := by
  obtain ⟨hi, hin, hd, hdn, _, _, _, _⟩ := h
  have h1 := length_keys_foldl_deleteStep d.Delete o.ob hd hdn
  have h2 := length_keys_foldl_updateStep d.Update (d.Delete.foldl deleteStep o.ob)
  have h3 := length_keys_foldl_insertStep d.Insert
    (d.Update.foldl updateStep (d.Delete.foldl deleteStep o.ob))
    (fun e he hmem =>
      hi e he (mem_foldl_deleteStep _ _ _ ((mem_foldl_updateStep _ _ _).1 hmem))) hin
  show (d.Insert.foldl insertStep _).keys.length + _ = o.ob.keys.length + _
  omega

theorem count_applyDeltas_of_valid (ds : List OrderBookL2Delta) :
    ∀ o : OderBookLocal, ValidDeltas o ds →
      (applyDeltas o ds).count + totalDeletes ds = o.count + totalInserts ds := by
  induction ds with
  | nil => intro o _; rfl
  | cons d ds ih =>
    intro o h
    have h1 := count_Update_of_valid o d h.1
    have h2 := ih (o.Update d) h.2
    unfold applyDeltas totalDeletes totalInserts at *
    rw [List.foldl_cons, List.map_cons, List.map_cons, List.sum_cons, List.sum_cons]
    omega

/-- C5: for every snapshot and every sequence of valid deltas applied in order
with `Update`, the number of levels in the store is the number after
`LoadSnapshot` plus the total number of insert entries minus the total number
of delete entries (and the subtraction does not go below zero). -/
theorem count_after_valid_deltas (o : OderBookLocal) (snapshot : List OrderBookL2)
    (ds : List OrderBookL2Delta) (h : ValidDeltas (o.LoadSnapshot snapshot).1 ds) :
    totalDeletes ds ≤ (o.LoadSnapshot snapshot).1.count + totalInserts ds ∧
    (applyDeltas (o.LoadSnapshot snapshot).1 ds).count =
      (o.LoadSnapshot snapshot).1.count + totalInserts ds - totalDeletes ds := by
  have := count_applyDeltas_of_valid ds _ h
  omega

/-! ## The book computed by `GetOrderBook` -/

theorem sortSlice_perm {α : Type} (less : α → α → Bool) (xs : List α) :
    (sortSlice less xs).Perm xs :=
  List.perm_insertionSort _ xs

theorem Float64.ofNat_eq (n : Nat) : (OfNat.ofNat n : Float64) = Float64.finite (n : ℚ) :=
  rfl

theorem Float64.lt_irrefl (a : Float64) : Float64.lt a a = false := by
  cases a <;> simp [Float64.lt]

theorem Float64.lt_total (a b : Float64) :
    Float64.lt b a = false ∨ Float64.lt a b = false := by
  cases a <;> cases b <;> simp [Float64.lt]
  exact le_total _ _

theorem Float64.not_lt_trans (a b c : Float64) (hb : b ≠ Float64.NaN)
    (h1 : Float64.lt a b = false) (h2 : Float64.lt b c = false) : Float64.lt a c = false := by
  cases a <;> cases b <;> cases c <;> simp_all [Float64.lt]
  exact le_trans h2 h1

theorem Float64.le_iff_not_lt (a b : Float64) (ha : a ≠ Float64.NaN) (hb : b ≠ Float64.NaN) :
    Float64.le a b = true ↔ Float64.lt b a = false := by
  cases a <;> cases b <;> simp_all [Float64.le, Float64.lt]

theorem Float64.le_refl (a : Float64) (ha : a ≠ Float64.NaN) : Float64.le a a = true :=
  (Float64.le_iff_not_lt a a ha ha).2 (Float64.lt_irrefl a)

theorem pairwise_orderedInsert {α : Type} (r : α → α → Prop) [DecidableRel r] (P : α → Prop)
    (htotal : ∀ a b, r a b ∨ r b a)
    (htrans : ∀ a b c, P b → r a b → r b c → r a c) (a : α) :
    ∀ l : List α, (∀ x ∈ l, P x) → l.Pairwise r → (l.orderedInsert r a).Pairwise r := by
  intro l
  induction l with
  | nil => intro _ _; simp
  | cons b l ih =>
    intro hP hl
    rw [List.orderedInsert]
    obtain ⟨hb, hl2⟩ := List.pairwise_cons.1 hl
    split
    · rename_i hab
      refine List.pairwise_cons.2 ⟨?_, hl⟩
      intro c hc
      rcases List.mem_cons.1 hc with hc | hc
      · rw [hc]; exact hab
      · exact htrans a b c (hP b (by simp)) hab (hb c hc)
    · rename_i hab
      have hba : r b a := (htotal a b).resolve_left hab
      refine List.pairwise_cons.2 ⟨?_, ih (fun x hx => hP x (by simp [hx])) hl2⟩
      intro c hc
      rcases (List.mem_orderedInsert r).1 hc with hc | hc
      · rw [hc]; exact hba
      · exact hb c hc

theorem sortSlice_sorted_of {α : Type} (less : α → α → Bool) (P : α → Prop)
    (htotal : ∀ a b, less b a = false ∨ less a b = false)
    (htrans : ∀ a b c, P b → less b a = false → less c b = false → less c a = false) :
    ∀ xs : List α, (∀ x ∈ xs, P x) →
      (sortSlice less xs).Pairwise (fun a b => less b a = false) := by
  intro xs
  induction xs with
  | nil => intro _; simp [sortSlice]
  | cons x xs ih =>
    intro hP
    have hxs : ∀ y ∈ xs, P y := fun y hy => hP y (by simp [hy])
    have hmem : ∀ y ∈ sortSlice less xs, P y := fun y hy =>
      hxs y ((sortSlice_perm less xs).mem_iff.1 hy)
    exact pairwise_orderedInsert (fun a b => less b a = false) P htotal htrans x _ hmem (ih hxs)

theorem foldl_appendLevel (iter : List OrderBookL2) :
    ∀ ob : OrderBook, iter.foldl appendLevel ob =
      { Bids := ob.Bids ++ (iter.filter (fun v => decide (v.Side = "Buy"))).map toItem
        Asks := ob.Asks ++ (iter.filter (fun v => decide (v.Side = "Sell"))).map toItem
        Timestamp := ob.Timestamp } := by
  induction iter with
  | nil => intro ob; simp
  | cons v iter ih =>
    intro ob
    rw [List.foldl_cons, ih]
    unfold appendLevel
    by_cases hb : v.Side = "Buy"
    · have hs : ¬ v.Side = "Sell" := by rw [hb]; decide
      simp [hb, toItem]
    · by_cases hs : v.Side = "Sell"
      · simp [hs, toItem]
      · simp [hb, hs]

theorem length_filter_buy_add_sell (l : List OrderBookL2) :
    (l.filter (fun v => decide (v.Side = "Buy"))).length +
      (l.filter (fun v => decide (v.Side = "Sell"))).length =
    (l.filter (fun v => decide (v.Side = "Buy" ∨ v.Side = "Sell"))).length := by
  induction l with
  | nil => rfl
  | cons v l ih =>
    by_cases hb : v.Side = "Buy"
    · have e1 : decide (("Buy" : String) = "Sell") = false := by decide
      simp only [List.filter_cons, hb, e1, decide_True, true_or, if_true,
        List.length_cons, Bool.false_eq_true, if_false] at ih ⊢
      omega
    · by_cases hs : v.Side = "Sell"
      · have e2 : decide (("Sell" : String) = "Buy") = false := by decide
        simp only [List.filter_cons, hs, e2, decide_True, or_true, if_true,
          List.length_cons, Bool.false_eq_true, if_false] at ih ⊢
        omega
      · simp only [List.filter_cons, hb, hs, decide_False, or_self, Bool.false_eq_true,
          if_false] at ih ⊢
        exact ih

theorem Bids_GetOrderBook_perm (iter : List OrderBookL2) (now : Int) :
    (GetOrderBook.ob iter emptyOrderBook now).Bids.Perm
      ((iter.filter (fun v => decide (v.Side = "Buy"))).map toItem) := by
  unfold GetOrderBook.ob
  simp only
  rw [foldl_appendLevel]
  exact (sortSlice_perm _ _).trans (by simp [emptyOrderBook])

theorem Asks_GetOrderBook_perm (iter : List OrderBookL2) (now : Int) :
    (GetOrderBook.ob iter emptyOrderBook now).Asks.Perm
      ((iter.filter (fun v => decide (v.Side = "Sell"))).map toItem) := by
  unfold GetOrderBook.ob
  simp only
  rw [foldl_appendLevel]
  exact (sortSlice_perm _ _).trans (by simp [emptyOrderBook])

/-- C8: for every store and every visiting order of its map, the bids computed
by `GetOrderBook` from an empty `OrderBook` are an arrangement of the (price,
size) items of the stored levels whose side is "Buy", one item for each such
level, the asks an arrangement of the items of the levels whose side is
"Sell", and the two lengths add up to the number of stored levels whose side
is "Buy" or "Sell". -/
theorem GetOrderBook_sides_partition (o : OderBookLocal) (iter : List OrderBookL2)
    (h : o.Ranges iter) (now : Int) :
    (GetOrderBook.ob iter emptyOrderBook now).Bids.Perm
      ((o.levels.filter (fun v => decide (v.Side = "Buy"))).map toItem) ∧
    (GetOrderBook.ob iter emptyOrderBook now).Asks.Perm
      ((o.levels.filter (fun v => decide (v.Side = "Sell"))).map toItem) ∧
    (GetOrderBook.ob iter emptyOrderBook now).Bids.length +
        (GetOrderBook.ob iter emptyOrderBook now).Asks.length =
      (o.levels.filter (fun v => decide (v.Side = "Buy" ∨ v.Side = "Sell"))).length := by
  have hb := (Bids_GetOrderBook_perm iter now).trans ((h.filter _).map toItem)
  have hs := (Asks_GetOrderBook_perm iter now).trans ((h.filter _).map toItem)
  refine ⟨hb, hs, ?_⟩
  rw [hb.length_eq, hs.length_eq, List.length_map, List.length_map,
    length_filter_buy_add_sell]

theorem sortSlice_pair_of_not_less {α : Type} (less : α → α → Bool) (a b : α)
    (h : less b a = false) : sortSlice less [a, b] = [a, b] := by
  simp [sortSlice, List.insertionSort, List.orderedInsert, h]

theorem Bids_two_equal (a b : OrderBookL2) (now : Int) (ha : a.Side = "Buy")
    (hb : b.Side = "Buy") (hp : a.Price = b.Price) :
    (GetOrderBook.ob [a, b] emptyOrderBook now).Bids = [toItem a, toItem b] := by
  unfold GetOrderBook.ob
  simp only
  rw [foldl_appendLevel]
  simp only [emptyOrderBook, List.nil_append, List.filter_cons, ha, hb, decide_True, if_true,
    List.filter_nil, List.map_cons, List.map_nil]
  apply sortSlice_pair_of_not_less
  simp [toItem, hp, Float64.gt, Float64.lt_irrefl]

theorem Asks_two_equal (a b : OrderBookL2) (now : Int) (ha : a.Side = "Sell")
    (hb : b.Side = "Sell") (hp : a.Price = b.Price) :
    (GetOrderBook.ob [a, b] emptyOrderBook now).Asks = [toItem a, toItem b] := by
  unfold GetOrderBook.ob
  simp only
  rw [foldl_appendLevel]
  simp only [emptyOrderBook, List.nil_append, List.filter_cons, ha, hb, decide_True, if_true,
    List.filter_nil, List.map_cons, List.map_nil]
  apply sortSlice_pair_of_not_less
  simp [toItem, hp, Float64.lt_irrefl]

theorem levels_insert_two (a b : OrderBookL2) (h : a.ID ≠ b.ID) :
    ((NewOrderBookLocal.Update { Delete := [], Update := [], Insert := [a] }).Update
      { Delete := [], Update := [], Insert := [b] }).levels = [b, a] := by
  have hk : b.Key ≠ a.Key := fun hk => h (FormatInt_injective hk).symm
  have hb : b.Key ∉ AList.insert a.Key a (∅ : LevelMap) := by
    rw [AList.mem_insert]
    rintro (h1 | h1)
    · exact hk h1
    · exact AList.not_mem_empty _ h1
  unfold OderBookLocal.levels OderBookLocal.Update NewOrderBookLocal
  simp only [List.foldl_nil, List.foldl_cons, insertStep]
  rw [AList.insert_entries_of_neg hb, AList.insert_entries_of_neg (AList.not_mem_empty _)]
  rfl

theorem eq_of_perm_pair {α : Type} (a b : α) (hab : a ≠ b) (iter : List α)
    (h : iter.Perm [b, a]) : iter = [a, b] ∨ iter = [b, a] := by
  obtain ⟨x, y, hxy⟩ := List.length_eq_two.1 h.length_eq
  subst hxy
  have hx : x = b ∨ x = a := by simpa using h.mem_iff.1 (List.mem_cons_self x [y])
  have hy : y = b ∨ y = a := by simpa using h.mem_iff.1 (by simp : y ∈ [x, y])
  have hnd : x ≠ y := by
    have : [x, y].Nodup := h.nodup_iff.2 (by simp [Ne.symm hab])
    simpa using this
  rcases hx with hx | hx <;> rcases hy with hy | hy
  · exact absurd (hx.trans hy.symm) hnd
  · right; rw [hx, hy]
  · left; rw [hx, hy]
  · exact absurd (hx.trans hy.symm) hnd

theorem Ranges_insert_comm (o : OderBookLocal) (a b : OrderBookL2) (hid : a.ID ≠ b.ID)
    (iter : List OrderBookL2) :
    ((o.Update { Delete := [], Update := [], Insert := [a] }).Update
        { Delete := [], Update := [], Insert := [b] }).Ranges iter ↔
      ((o.Update { Delete := [], Update := [], Insert := [b] }).Update
        { Delete := [], Update := [], Insert := [a] }).Ranges iter := by
  have hk : a.Key ≠ b.Key := fun hk => hid (FormatInt_injective hk)
  have hperm : ((o.ob.insert a.Key a).insert b.Key b).entries.Perm
      ((o.ob.insert b.Key b).insert a.Key a).entries := AList.insert_insert_of_ne o.ob hk
  have hl : ((o.Update { Delete := [], Update := [], Insert := [a] }).Update
        { Delete := [], Update := [], Insert := [b] }).levels.Perm
      ((o.Update { Delete := [], Update := [], Insert := [b] }).Update
        { Delete := [], Update := [], Insert := [a] }).levels := by
    unfold OderBookLocal.levels OderBookLocal.Update
    simp only [List.foldl_nil, List.foldl_cons, insertStep]
    exact hperm.map _
  unfold OderBookLocal.Ranges
  exact ⟨fun h => h.trans hl, fun h => h.trans hl.symm⟩

/-- C9, as amended: the order in which the book lists two levels of one side
that have equal prices is not the order of their insertion, which the store,
a map, does not record: inserting two levels with different identifiers into
any store in one order or the other gives stores with the same visiting
orders of the range, hence the same possible books.  For the store that holds
exactly two such levels, both arrangements are visiting orders, and for every
visiting order the book lists the two levels in that order. -/
theorem GetOrderBook_ties_follow_visiting_order (o : OderBookLocal) (a b : OrderBookL2)
    (now : Int) (hid : a.ID ≠ b.ID) (hp : a.Price = b.Price)
    (hside : (a.Side = "Buy" ∧ b.Side = "Buy") ∨ (a.Side = "Sell" ∧ b.Side = "Sell")) :
    (∀ iter : List OrderBookL2,
      ((o.Update { Delete := [], Update := [], Insert := [a] }).Update
          { Delete := [], Update := [], Insert := [b] }).Ranges iter ↔
        ((o.Update { Delete := [], Update := [], Insert := [b] }).Update
          { Delete := [], Update := [], Insert := [a] }).Ranges iter) ∧
    ((NewOrderBookLocal.Update { Delete := [], Update := [], Insert := [a] }).Update
      { Delete := [], Update := [], Insert := [b] }).Ranges [a, b] ∧
    ((NewOrderBookLocal.Update { Delete := [], Update := [], Insert := [a] }).Update
      { Delete := [], Update := [], Insert := [b] }).Ranges [b, a] ∧
    (∀ iter : List OrderBookL2,
      ((NewOrderBookLocal.Update { Delete := [], Update := [], Insert := [a] }).Update
        { Delete := [], Update := [], Insert := [b] }).Ranges iter →
      (a.Side = "Buy" → (GetOrderBook.ob iter emptyOrderBook now).Bids = iter.map toItem) ∧
      (a.Side = "Sell" → (GetOrderBook.ob iter emptyOrderBook now).Asks = iter.map toItem)) := by
  have hab : a ≠ b := fun h => hid (by rw [h])
  refine ⟨Ranges_insert_comm o a b hid, ?_, ?_, ?_⟩
  · unfold OderBookLocal.Ranges
    rw [levels_insert_two a b hid]
    exact List.Perm.swap b a []
  · unfold OderBookLocal.Ranges
    rw [levels_insert_two a b hid]
  · intro iter hr
    unfold OderBookLocal.Ranges at hr
    rw [levels_insert_two a b hid] at hr
    constructor
    · intro ha
      rcases hside with ⟨_, hb⟩ | ⟨hs, _⟩
      · rcases eq_of_perm_pair a b hab iter hr with h | h
        · rw [h]; exact Bids_two_equal a b now ha hb hp
        · rw [h]; exact Bids_two_equal b a now hb ha hp.symm
      · rw [ha] at hs; exact absurd hs (by decide)
    · intro ha
      rcases hside with ⟨hs, _⟩ | ⟨_, hb⟩
      · rw [ha] at hs; exact absurd hs (by decide)
      · rcases eq_of_perm_pair a b hab iter hr with h | h
        · rw [h]; exact Asks_two_equal a b now ha hb hp
        · rw [h]; exact Asks_two_equal b a now hb ha hp.symm

/-- C9, counterexample: `bid100` was inserted before `bid100b`, both are bids
at the price 100, and for the visiting order `[bid100b, bid100]` of the map
the book lists `bid100b` first. -/
theorem GetOrderBook_ties_against_insertion_order :
    bid100.Side = bid100b.Side ∧ bid100.Price = bid100b.Price ∧
    storeTwoBids.Ranges [bid100b, bid100] ∧
    (GetOrderBook.ob [bid100b, bid100] emptyOrderBook 0).Bids =
      [toItem bid100b, toItem bid100] ∧
    ¬ (GetOrderBook.ob [bid100b, bid100] emptyOrderBook 0).Bids =
      [toItem bid100, toItem bid100b] := by
  refine ⟨by decide, by decide, ?_, by decide, by decide⟩
  unfold OderBookLocal.Ranges
  decide

/-- The panic is not particular to the empty store: for every visiting order
in which no level has side "Buy", or no level has side "Sell", the method
panics on the first element of the empty side. -/
theorem GetOrderBook_panics_of_empty_side (iter : List OrderBookL2) (t : Ticker) (now : Int)
    (h : (∀ v ∈ iter, v.Side ≠ "Buy") ∨ (∀ v ∈ iter, v.Side ≠ "Sell")) :
    GetOrderBook iter emptyOrderBook t now =
      Except.error "index out of range [0] with length 0" := by
  unfold GetOrderBook
  simp only
  cases hB : (GetOrderBook.ob iter emptyOrderBook now).Bids with
  | nil => rfl
  | cons b bs =>
    rcases h with h | h
    · have hp := Bids_GetOrderBook_perm iter now
      have hf : iter.filter (fun v => decide (v.Side = "Buy")) = [] := by
        rw [List.filter_eq_nil_iff]
        intro v hv
        simpa using h v hv
      rw [hf, List.map_nil, hB] at hp
      exact absurd hp.length_eq (by simp)
    · have hp := Asks_GetOrderBook_perm iter now
      have hf : iter.filter (fun v => decide (v.Side = "Sell")) = [] := by
        rw [List.filter_eq_nil_iff]
        intro v hv
        simpa using h v hv
      rw [hf, List.map_nil] at hp
      rw [List.Perm.eq_nil hp]

/-- C10, the failing input: on the empty store `GetOrderBook` panics on
`ob.Bids[0]`; it returns no ticker and no book. -/
theorem GetOrderBook_empty_store_panics :
    NewOrderBookLocal.Ranges [] ∧
    GetOrderBook [] emptyOrderBook zeroTicker 0 =
      Except.error "index out of range [0] with length 0" :=
  ⟨List.Perm.nil, rfl⟩

/-! ## Instances of the properties on the sample data -/

/-- C2 on `storeTwoBids` and `deltaReinsert`: identifier 1 is deleted and
inserted and ends as the insert entry; identifier 2 is deleted and updated
and ends absent. -/
theorem Update_deletes_then_updates_then_inserts_witness :
    ((storeTwoBids.Update deltaReinsert).ob.lookup (FormatInt 1) =
        lastWithID deltaReinsert.Insert 1 ∧
      (lastWithID deltaReinsert.Insert 1).isSome = true) ∧
    ((storeTwoBids.Update deltaReinsert).ob.lookup (FormatInt 2) = none ∧
      FormatInt 2 ∉ (storeTwoBids.Update deltaReinsert).ob) :=
  ⟨(Update_deletes_then_updates_then_inserts storeTwoBids deltaReinsert 1).1
      (by decide) (by decide),
   (Update_deletes_then_updates_then_inserts storeTwoBids deltaReinsert 2).2
      (by decide) (by decide) (by decide)⟩

/-- C3 on `storeTwoBids` and `deltaUpdates`. -/
theorem Update_only_updates_frame_witness :
    (deltaUpdates.Delete = [] ∧ deltaUpdates.Insert = []) ∧
    (∀ k : String, k ∈ (storeTwoBids.Update deltaUpdates).ob ↔ k ∈ storeTwoBids.ob) ∧
    (∀ (k : String) (v : OrderBookL2), storeTwoBids.ob.lookup k = some v →
      ∃ w, (storeTwoBids.Update deltaUpdates).ob.lookup k = some w ∧
        w.ID = v.ID ∧ w.Price = v.Price ∧ w.Symbol = v.Symbol) :=
  ⟨⟨rfl, rfl⟩, (Update_only_updates_frame storeTwoBids deltaUpdates rfl rfl).1,
    (Update_only_updates_frame storeTwoBids deltaUpdates rfl rfl).2.1⟩

/-- C4, counterexample: `storeBid` holds `bid100` under identifier 1, the delta
`deltaInsertOne` deletes nothing and inserts `other1` with identifier 1, and
afterwards the store holds `other1` under identifier 1. -/
theorem Update_insert_present_not_skipped :
    other1 ∈ deltaInsertOne.Insert ∧ other1.Key ∈ storeBid.ob ∧
    (∀ x ∈ deltaInsertOne.Delete, x.ID ≠ other1.ID) ∧
    storeBid.ob.lookup other1.Key = some bid100 ∧
    (storeBid.Update deltaInsertOne).ob.lookup other1.Key = some other1 ∧
    ¬ (storeBid.Update deltaInsertOne).ob.lookup other1.Key = storeBid.ob.lookup other1.Key := by
  refine ⟨by decide, by decide, by decide, by decide, by decide, by decide⟩

/-- C4 as amended, on `storeBid` and `deltaInsertOne`. -/
theorem Update_insert_overwrites_witness :
    other1 ∈ deltaInsertOne.Insert ∧
    ((storeBid.Update deltaInsertOne).ob.lookup other1.Key =
        lastWithID deltaInsertOne.Insert other1.ID ∧
      (lastWithID deltaInsertOne.Insert other1.ID).isSome = true) :=
  ⟨by decide, Update_insert_overwrites storeBid deltaInsertOne other1 (by decide)⟩

theorem validDeltas_valid :
    ValidDeltas (NewOrderBookLocal.LoadSnapshot [bid100, ask101]).1 validDeltas := by
  unfold validDeltas ValidDeltas ValidDeltas ValidDeltas ValidDelta
  decide

/-- C5 on the snapshot `[bid100, ask101]` followed by `validDeltas`. -/
theorem count_after_valid_deltas_witness :
    ValidDeltas (NewOrderBookLocal.LoadSnapshot [bid100, ask101]).1 validDeltas ∧
    (totalDeletes validDeltas ≤
        (NewOrderBookLocal.LoadSnapshot [bid100, ask101]).1.count + totalInserts validDeltas ∧
      (applyDeltas (NewOrderBookLocal.LoadSnapshot [bid100, ask101]).1 validDeltas).count =
        (NewOrderBookLocal.LoadSnapshot [bid100, ask101]).1.count +
          totalInserts validDeltas - totalDeletes validDeltas) :=
  ⟨validDeltas_valid,
    count_after_valid_deltas NewOrderBookLocal [bid100, ask101] validDeltas validDeltas_valid⟩

theorem storeBidAsk_ranges : storeBidAsk.Ranges [bid100, ask101] := by
  unfold OderBookLocal.Ranges
  decide

/-- C8 on `storeBidAsk` visited in the order `[bid100, ask101]`. -/
theorem GetOrderBook_sides_partition_witness :
    storeBidAsk.Ranges [bid100, ask101] ∧
    (GetOrderBook.ob [bid100, ask101] emptyOrderBook 0).Bids.Perm
      ((storeBidAsk.levels.filter (fun v => decide (v.Side = "Buy"))).map toItem) ∧
    (GetOrderBook.ob [bid100, ask101] emptyOrderBook 0).Bids.length +
        (GetOrderBook.ob [bid100, ask101] emptyOrderBook 0).Asks.length =
      (storeBidAsk.levels.filter (fun v => decide (v.Side = "Buy" ∨ v.Side = "Sell"))).length :=
  ⟨storeBidAsk_ranges,
    (GetOrderBook_sides_partition storeBidAsk [bid100, ask101] storeBidAsk_ranges 0).1,
    (GetOrderBook_sides_partition storeBidAsk [bid100, ask101] storeBidAsk_ranges 0).2.2⟩

/-- C9 as amended, on `bid100` and `bid100b`: both arrangements are visiting
orders of `storeTwoBids`, and visited as `[bid100b, bid100]` the book lists
`bid100b` first. -/
theorem GetOrderBook_ties_follow_visiting_order_witness :
    (bid100.ID ≠ bid100b.ID ∧ bid100.Price = bid100b.Price ∧ bid100.Side = "Buy" ∧
      bid100b.Side = "Buy") ∧
    storeTwoBids.Ranges [bid100, bid100b] ∧ storeTwoBids.Ranges [bid100b, bid100] ∧
    (GetOrderBook.ob [bid100b, bid100] emptyOrderBook 0).Bids =
      [bid100b, bid100].map toItem :=
  ⟨⟨by decide, by decide, by decide, by decide⟩,
    (GetOrderBook_ties_follow_visiting_order NewOrderBookLocal bid100 bid100b 0 (by decide)
      (by decide) (Or.inl ⟨by decide, by decide⟩)).2.1,
    (GetOrderBook_ties_follow_visiting_order NewOrderBookLocal bid100 bid100b 0 (by decide)
      (by decide) (Or.inl ⟨by decide, by decide⟩)).2.2.1,
    ((GetOrderBook_ties_follow_visiting_order NewOrderBookLocal bid100 bid100b 0 (by decide)
      (by decide) (Or.inl ⟨by decide, by decide⟩)).2.2.2 [bid100b, bid100]
      (GetOrderBook_ties_follow_visiting_order NewOrderBookLocal bid100 bid100b 0 (by decide)
        (by decide) (Or.inl ⟨by decide, by decide⟩)).2.2.1).1 (by decide)⟩

end market

namespace parser

open market

/-! ## The sequence number of a delta message -/

/-- C6, counterexample: after the snapshot message (sequence 1) the delta
message with sequence 5 is not rejected; `parseOrderbook` returns the delta
without an error and the level stored under identifier 1 has changed. -/
theorem parseOrderbook_applies_delta_after_gap :
    sampleDeltaMsg.Data.Seq ≠ sampleSnapshotMsg.Data.Seq + 1 ∧
    sampleDeltaMsg.Data.U ≠ sampleSnapshotMsg.Data.U + 1 ∧
    (parseOrderbook sampleParseFloat parserAfterSnapshot sampleDeltaMsg "delta" "BTCUSDT").2 =
      Except.ok (Parsed.delta
        { Delete := []
          Update := [{ ID := 1, Price := 100, Side := "Buy", Size := 7, Symbol := "BTCUSDT" }]
          Insert := [] }) ∧
    parserAfterSnapshot.OrderBookLocal.ob.lookup "1" =
      some { ID := 1, Price := 100, Side := "Buy", Size := 2, Symbol := "BTCUSDT" } ∧
    (parseOrderbook sampleParseFloat parserAfterSnapshot sampleDeltaMsg "delta"
        "BTCUSDT").1.OrderBookLocal.ob.lookup "1" =
      some { ID := 1, Price := 100, Side := "Buy", Size := 7, Symbol := "BTCUSDT" } :=
  ⟨by decide, by decide, rfl, by decide, by decide⟩

/-- C6, as amended: the delta branch of `parseOrderbook` keeps no sequence
state and checks none.  For every parser, every decoded message and all
values of the fields `U` and `Seq`, it returns no error, it applies a delta
with `Update`, and neither the delta nor the store afterwards depends on
`U` or `Seq`. -/
theorem parseOrderbook_delta_ignores_sequence (parseFloat : String → Option Float64)
    (p : MessageParser) (msg : OrderbookMsg) (symbol : String) (u seq : Int) :
    (∃ d : OrderBookL2Delta,
      parseOrderbook parseFloat p msg "delta" symbol =
        (⟨p.OrderBookLocal.Update d⟩, Except.ok (Parsed.delta d)) ∧
      parseOrderbook parseFloat p { msg with Data := { msg.Data with U := u, Seq := seq } }
          "delta" symbol =
        (⟨p.OrderBookLocal.Update d⟩, Except.ok (Parsed.delta d))) := by
  refine ⟨{ Delete := [], Update := parseLevels parseFloat msg.Data symbol, Insert := [] }, ?_, ?_⟩
  · unfold parseOrderbook
    rw [if_neg (by decide), if_pos rfl]
  · unfold parseOrderbook
    rw [if_neg (by decide), if_pos rfl]
    rfl

end parser

namespace market

/-! ## The ticker computed by `GetOrderBook` -/

theorem price_ne_NaN_of_mem_items (iter : List OrderBookL2)
    (hn : ∀ v ∈ iter, v.Price ≠ Float64.NaN) (side : String) (x : Item)
    (hx : x ∈ (iter.filter (fun v => decide (v.Side = side))).map toItem) :
    x.Price ≠ Float64.NaN := by
  rw [List.mem_map] at hx
  obtain ⟨v, hv, hvx⟩ := hx
  rw [← hvx]
  exact hn v (List.mem_of_mem_filter hv)

theorem Bids_GetOrderBook_sorted (iter : List OrderBookL2) (now : Int)
    (hn : ∀ v ∈ iter, v.Price ≠ Float64.NaN) :
    (GetOrderBook.ob iter emptyOrderBook now).Bids.Pairwise
      (fun a b => b.Price.le a.Price = true) := by
  have hperm := Bids_GetOrderBook_perm iter now
  have hP : ∀ x ∈ (GetOrderBook.ob iter emptyOrderBook now).Bids, x.Price ≠ Float64.NaN :=
    fun x hx => price_ne_NaN_of_mem_items iter hn "Buy" x (hperm.mem_iff.1 hx)
  have hs : (GetOrderBook.ob iter emptyOrderBook now).Bids.Pairwise
      (fun a b => b.Price.gt a.Price = false) := by
    unfold GetOrderBook.ob
    simp only
    rw [foldl_appendLevel]
    apply sortSlice_sorted_of (fun a b : Item => a.Price.gt b.Price)
      (fun x => x.Price ≠ Float64.NaN)
    · intro a b
      exact Float64.lt_total b.Price a.Price
    · intro a b c hb h1 h2
      exact Float64.not_lt_trans a.Price b.Price c.Price hb h1 h2
    · intro x hx
      simp only [emptyOrderBook, List.nil_append] at hx
      exact price_ne_NaN_of_mem_items iter hn "Buy" x hx
  refine hs.imp_of_mem ?_
  intro a b ha hb h
  exact (Float64.le_iff_not_lt b.Price a.Price (hP b hb) (hP a ha)).2 h

theorem Asks_GetOrderBook_sorted (iter : List OrderBookL2) (now : Int)
    (hn : ∀ v ∈ iter, v.Price ≠ Float64.NaN) :
    (GetOrderBook.ob iter emptyOrderBook now).Asks.Pairwise
      (fun a b => a.Price.le b.Price = true) := by
  have hperm := Asks_GetOrderBook_perm iter now
  have hP : ∀ x ∈ (GetOrderBook.ob iter emptyOrderBook now).Asks, x.Price ≠ Float64.NaN :=
    fun x hx => price_ne_NaN_of_mem_items iter hn "Sell" x (hperm.mem_iff.1 hx)
  have hs : (GetOrderBook.ob iter emptyOrderBook now).Asks.Pairwise
      (fun a b => b.Price.lt a.Price = false) := by
    unfold GetOrderBook.ob
    simp only
    rw [foldl_appendLevel]
    apply sortSlice_sorted_of (fun a b : Item => a.Price.lt b.Price)
      (fun x => x.Price ≠ Float64.NaN)
    · intro a b
      exact Float64.lt_total a.Price b.Price
    · intro a b c hb h1 h2
      exact Float64.not_lt_trans c.Price b.Price a.Price hb h2 h1
    · intro x hx
      simp only [emptyOrderBook, List.nil_append] at hx
      exact price_ne_NaN_of_mem_items iter hn "Sell" x hx
  refine hs.imp_of_mem ?_
  intro a b ha hb h
  exact (Float64.le_iff_not_lt a.Price b.Price (hP a ha) (hP b hb)).2 h

theorem mem_Bids_iff (o : OderBookLocal) (iter : List OrderBookL2) (h : o.Ranges iter)
    (now : Int) (x : Item) :
    x ∈ (GetOrderBook.ob iter emptyOrderBook now).Bids ↔
      ∃ v ∈ o.levels, v.Side = "Buy" ∧ toItem v = x := by
  rw [((Bids_GetOrderBook_perm iter now).trans ((h.filter _).map toItem)).mem_iff]
  simp [List.mem_map, List.mem_filter, and_assoc]

theorem mem_Asks_iff (o : OderBookLocal) (iter : List OrderBookL2) (h : o.Ranges iter)
    (now : Int) (x : Item) :
    x ∈ (GetOrderBook.ob iter emptyOrderBook now).Asks ↔
      ∃ v ∈ o.levels, v.Side = "Sell" ∧ toItem v = x := by
  rw [((Asks_GetOrderBook_perm iter now).trans ((h.filter _).map toItem)).mem_iff]
  simp [List.mem_map, List.mem_filter, and_assoc]

/-- With a level on each side the method returns; when no stored price is
not-a-number the ticker is the best level of each side: the highest bid and
the lowest ask, each with the size of a stored level at that price. -/
theorem GetOrderBook_ticker_of_sides (o : OderBookLocal) (iter : List OrderBookL2)
    (t : Ticker) (now : Int) (h : o.Ranges iter)
    (hn : ∀ v ∈ o.levels, v.Price ≠ Float64.NaN)
    (hbuy : ∃ v ∈ o.levels, v.Side = "Buy") (hsell : ∃ v ∈ o.levels, v.Side = "Sell") :
    ∃ ob tk, GetOrderBook iter emptyOrderBook t now = Except.ok (ob, tk) ∧
      ob = GetOrderBook.ob iter emptyOrderBook now ∧ tk.Time = now ∧
      (∃ v ∈ o.levels, v.Side = "Buy" ∧ v.Price = tk.Bid ∧ v.Size = tk.BidSize) ∧
      (∀ v ∈ o.levels, v.Side = "Buy" → v.Price.le tk.Bid = true) ∧
      (∃ v ∈ o.levels, v.Side = "Sell" ∧ v.Price = tk.Ask ∧ v.Size = tk.AskSize) ∧
      (∀ v ∈ o.levels, v.Side = "Sell" → tk.Ask.le v.Price = true) := by
  have hmB := mem_Bids_iff o iter h now
  have hmA := mem_Asks_iff o iter h now
  have hni : ∀ v ∈ iter, v.Price ≠ Float64.NaN := fun v hv => hn v (h.mem_iff.1 hv)
  have hsB := Bids_GetOrderBook_sorted iter now hni
  have hsA := Asks_GetOrderBook_sorted iter now hni
  cases hB : (GetOrderBook.ob iter emptyOrderBook now).Bids with
  | nil =>
    obtain ⟨v, hv, hs⟩ := hbuy
    have := (hmB (toItem v)).2 ⟨v, hv, hs, rfl⟩
    rw [hB] at this
    simp at this
  | cons b bs =>
    cases hA : (GetOrderBook.ob iter emptyOrderBook now).Asks with
    | nil =>
      obtain ⟨v, hv, hs⟩ := hsell
      have := (hmA (toItem v)).2 ⟨v, hv, hs, rfl⟩
      rw [hA] at this
      simp at this
    | cons a as =>
      rw [hB] at hmB hsB
      rw [hA] at hmA hsA
      refine ⟨GetOrderBook.ob iter emptyOrderBook now,
        { Bid := b.Price, BidSize := b.Amount, Ask := a.Price, AskSize := a.Amount,
          Time := now }, ?_, rfl, rfl, ?_, ?_, ?_, ?_⟩
      · unfold GetOrderBook
        simp only [hB, hA]
      · obtain ⟨v, hv, hs, hi⟩ := (hmB b).1 (by simp)
        exact ⟨v, hv, hs, by rw [← hi]; rfl, by rw [← hi]; rfl⟩
      · intro v hv hs
        have hx := (hmB (toItem v)).2 ⟨v, hv, hs, rfl⟩
        rcases List.mem_cons.1 hx with hx | hx
        · rw [← hx]; exact Float64.le_refl _ (hn v hv)
        · exact (List.pairwise_cons.1 hsB).1 _ hx
      · obtain ⟨v, hv, hs, hi⟩ := (hmA a).1 (by simp)
        exact ⟨v, hv, hs, by rw [← hi]; rfl, by rw [← hi]; rfl⟩
      · intro v hv hs
        have hx := (hmA (toItem v)).2 ⟨v, hv, hs, rfl⟩
        rcases List.mem_cons.1 hx with hx | hx
        · rw [← hx]; exact Float64.le_refl _ (hn v hv)
        · exact (List.pairwise_cons.1 hsA).1 _ hx

theorem levels_storeExample : storeExample.levels = [ask1005, bid995, bid100] := by
  rfl

theorem storeExample_no_NaN : ∀ v ∈ storeExample.levels, v.Price ≠ Float64.NaN := by
  intro v hv
  rw [levels_storeExample] at hv
  simp only [List.mem_cons, List.mem_singleton, List.not_mem_nil, or_false] at hv
  rcases hv with hv | hv | hv <;> subst hv <;> intro hc <;> cases hc

theorem le_100_995 : Float64.le (100 : Float64) (Float64.finite (199 / 2)) = false := by
  rw [Float64.ofNat_eq]
  simp only [Float64.le, Float64.lt]
  norm_num

theorem ticker_storeExample (iter : List OrderBookL2) (t : Ticker) (now : Int)
    (h : storeExample.Ranges iter) :
    ∃ ob, GetOrderBook iter emptyOrderBook t now =
      Except.ok (ob, { Bid := 100, BidSize := 2, Ask := Float64.finite (201 / 2), AskSize := 3,
                       Time := now }) := by
  obtain ⟨ob, tk, heq, _, htime, ⟨v, hv, hs, hp, hz⟩, hmax, ⟨w, hw, hws, hwp, hwz⟩, _⟩ :=
    GetOrderBook_ticker_of_sides storeExample iter t now h storeExample_no_NaN
      ⟨bid100, by rw [levels_storeExample]; simp, rfl⟩
      ⟨ask1005, by rw [levels_storeExample]; simp, rfl⟩
  have h100 := hmax bid100 (by rw [levels_storeExample]; simp) rfl
  rw [levels_storeExample] at hv hw
  simp only [List.mem_cons, List.mem_singleton, List.not_mem_nil, or_false] at hv hw
  refine ⟨ob, ?_⟩
  rw [heq]
  have hB : tk.Bid = 100 ∧ tk.BidSize = 2 := by
    rcases hv with hv | hv | hv
    · subst hv; exact absurd hs (by decide)
    · subst hv
      rw [← hp] at h100
      have h2 : Float64.le (100 : Float64) (Float64.finite (199 / 2)) = true := h100
      rw [le_100_995] at h2
      cases h2
    · subst hv; exact ⟨hp.symm, hz.symm⟩
  have hA : tk.Ask = Float64.finite (201 / 2) ∧ tk.AskSize = 3 := by
    rcases hw with hw | hw | hw
    · subst hw; exact ⟨hwp.symm, hwz.symm⟩
    · subst hw; exact absurd hws (by decide)
    · subst hw; exact absurd hws (by decide)
  cases tk
  simp only at hB hA htime
  rw [hB.1, hB.2, hA.1, hA.2, htime]

theorem levels_storeNaN : storeNaN.levels = [ask101, bidTwo, bidNaN, bidOne] := by
  decide

theorem storeNaN_ranges : storeNaN.Ranges [bidOne, bidNaN, bidTwo, ask101] := by
  unfold OderBookLocal.Ranges
  rw [levels_storeNaN]
  exact List.reverse_perm [ask101, bidTwo, bidNaN, bidOne]

/-- C7, counterexample: the store holds the bids 1, NaN and 2.  Visited in that
order they stay in that order, every comparison with NaN being false, so the
bids are not ordered by price descending: the bid 1 is followed by NaN and by
the bid 2. -/
theorem GetOrderBook_unsorted_with_NaN :
    storeNaN.Ranges [bidOne, bidNaN, bidTwo, ask101] ∧
    (GetOrderBook.ob [bidOne, bidNaN, bidTwo, ask101] emptyOrderBook 0).Bids =
      [toItem bidOne, toItem bidNaN, toItem bidTwo] ∧
    ¬ (GetOrderBook.ob [bidOne, bidNaN, bidTwo, ask101] emptyOrderBook 0).Bids.Pairwise
      (fun a b => a.Price.ge b.Price = true) ∧
    Float64.ge (toItem bidOne).Price (toItem bidNaN).Price = false ∧
    Float64.ge (toItem bidOne).Price (toItem bidTwo).Price = false := by
  refine ⟨storeNaN_ranges, by decide, by decide, by decide, by decide⟩

/-- C7, as amended: for every store in which no level has a price that is
not-a-number, and every visiting order of its map, the book computed by
`GetOrderBook` from an empty `OrderBook` has its bids ordered by price
descending, each bid's price greater than or equal to the price of every later
bid, and its asks ordered by price ascending. -/
theorem GetOrderBook_sorted_of_no_NaN (o : OderBookLocal) (iter : List OrderBookL2)
    (now : Int) (h : o.Ranges iter) (hn : ∀ v ∈ o.levels, v.Price ≠ Float64.NaN) :
    (GetOrderBook.ob iter emptyOrderBook now).Bids.Pairwise
      (fun a b => a.Price.ge b.Price = true) ∧
    (GetOrderBook.ob iter emptyOrderBook now).Asks.Pairwise
      (fun a b => a.Price.le b.Price = true) := by
  have hni : ∀ v ∈ iter, v.Price ≠ Float64.NaN := fun v hv => hn v (h.mem_iff.1 hv)
  exact ⟨Bids_GetOrderBook_sorted iter now hni, Asks_GetOrderBook_sorted iter now hni⟩

theorem storeExample_ranges : storeExample.Ranges [bid100, bid995, ask1005] := by
  unfold OderBookLocal.Ranges
  rw [levels_storeExample]
  exact List.reverse_perm [ask1005, bid995, bid100]

/-- C7 as amended, on the store of the example visited in the order of the
snapshot. -/
theorem GetOrderBook_sorted_of_no_NaN_witness :
    (storeExample.Ranges [bid100, bid995, ask1005] ∧
      ∀ v ∈ storeExample.levels, v.Price ≠ Float64.NaN) ∧
    (GetOrderBook.ob [bid100, bid995, ask1005] emptyOrderBook 0).Bids.Pairwise
      (fun a b => a.Price.ge b.Price = true) :=
  ⟨⟨storeExample_ranges, storeExample_no_NaN⟩,
    (GetOrderBook_sorted_of_no_NaN storeExample [bid100, bid995, ask1005] 0 storeExample_ranges
      storeExample_no_NaN).1⟩

/-- C11, counterexample: the store holds the bids 1, NaN and 2 and an ask.
Visited in that order the bids stay in that order, so the ticker has bid 1,
although a Buy level with the greater price 2 is stored. -/
theorem GetOrderBook_ticker_not_best_with_NaN :
    storeNaN.Ranges [bidOne, bidNaN, bidTwo, ask101] ∧
    (∃ ob, GetOrderBook [bidOne, bidNaN, bidTwo, ask101] emptyOrderBook zeroTicker 0 =
      Except.ok (ob, { Bid := 1, BidSize := 1, Ask := 101, AskSize := 3, Time := 0 })) ∧
    bidTwo ∈ storeNaN.levels ∧ bidTwo.Side = "Buy" ∧
    Float64.lt 1 bidTwo.Price = true ∧ Float64.le bidTwo.Price 1 = false := by
  refine ⟨storeNaN_ranges, ⟨_, rfl⟩, by decide, by decide, by decide, by decide⟩

/-- C11, as amended: for every store with a level of side "Buy" and a level of
side "Sell" in which no level has a price that is not-a-number, and every
visiting order of its map, `GetOrderBook` from an empty `OrderBook` returns,
and its ticker has `Bid` equal to the greatest price of the Buy levels with
`BidSize` the size of a Buy level at that price, and `Ask` equal to the least
price of the Sell levels with `AskSize` the size of a Sell level at that
price.  For the snapshot with the bids (100.0, 2) and (99.5, 1) and the ask
(100.5, 3) the ticker is bid 100.0, bid size 2, ask 100.5, ask size 3. -/
theorem GetOrderBook_ticker_best_of_no_NaN :
    (∀ (o : OderBookLocal) (iter : List OrderBookL2) (t : Ticker) (now : Int),
      o.Ranges iter → (∀ v ∈ o.levels, v.Price ≠ Float64.NaN) →
      (∃ v ∈ o.levels, v.Side = "Buy") → (∃ v ∈ o.levels, v.Side = "Sell") →
      ∃ ob tk, GetOrderBook iter emptyOrderBook t now = Except.ok (ob, tk) ∧
        (∃ v ∈ o.levels, v.Side = "Buy" ∧ v.Price = tk.Bid ∧ v.Size = tk.BidSize) ∧
        (∀ v ∈ o.levels, v.Side = "Buy" → v.Price.le tk.Bid = true) ∧
        (∃ v ∈ o.levels, v.Side = "Sell" ∧ v.Price = tk.Ask ∧ v.Size = tk.AskSize) ∧
        (∀ v ∈ o.levels, v.Side = "Sell" → tk.Ask.le v.Price = true)) ∧
    (∀ (iter : List OrderBookL2) (t : Ticker) (now : Int), storeExample.Ranges iter →
      ∃ ob, GetOrderBook iter emptyOrderBook t now =
        Except.ok (ob, { Bid := 100, BidSize := 2, Ask := Float64.finite (201 / 2),
                         AskSize := 3, Time := now })) := by
  refine ⟨?_, ticker_storeExample⟩
  intro o iter t now h hn hb hs
  obtain ⟨ob, tk, heq, _, _, h1, h2, h3, h4⟩ :=
    GetOrderBook_ticker_of_sides o iter t now h hn hb hs
  exact ⟨ob, tk, heq, h1, h2, h3, h4⟩

/-- C11 as amended, on the store of the example, visited in the order of the
snapshot. -/
theorem GetOrderBook_ticker_best_of_no_NaN_witness :
    (storeExample.Ranges [bid100, bid995, ask1005] ∧
      (∀ v ∈ storeExample.levels, v.Price ≠ Float64.NaN) ∧
      (∃ v ∈ storeExample.levels, v.Side = "Buy") ∧
      (∃ v ∈ storeExample.levels, v.Side = "Sell")) ∧
    (∃ ob tk, GetOrderBook [bid100, bid995, ask1005] emptyOrderBook zeroTicker 7 =
        Except.ok (ob, tk) ∧
      (∀ v ∈ storeExample.levels, v.Side = "Buy" → v.Price.le tk.Bid = true)) ∧
    ∃ ob, GetOrderBook [bid100, bid995, ask1005] emptyOrderBook zeroTicker 7 =
      Except.ok (ob, { Bid := 100, BidSize := 2, Ask := Float64.finite (201 / 2), AskSize := 3,
                       Time := 7 }) := by
  have hbuy : ∃ v ∈ storeExample.levels, v.Side = "Buy" :=
    ⟨bid100, by rw [levels_storeExample]; simp, rfl⟩
  have hsell : ∃ v ∈ storeExample.levels, v.Side = "Sell" :=
    ⟨ask1005, by rw [levels_storeExample]; simp, rfl⟩
  refine ⟨⟨storeExample_ranges, storeExample_no_NaN, hbuy, hsell⟩, ?_,
    GetOrderBook_ticker_best_of_no_NaN.2 [bid100, bid995, ask1005] zeroTicker 7
      storeExample_ranges⟩
  obtain ⟨ob, tk, heq, _, hmax, _, _⟩ :=
    GetOrderBook_ticker_best_of_no_NaN.1 storeExample [bid100, bid995, ask1005] zeroTicker 7
      storeExample_ranges storeExample_no_NaN hbuy hsell
  exact ⟨ob, tk, heq, hmax⟩

/-! ## An update entry of size zero -/

theorem lastWithID_append_singleton (l : List OrderBookL2) (x : OrderBookL2) (id : Int) :
    lastWithID (l ++ [x]) id = if x.ID = id then some x else lastWithID l id := by
  unfold lastWithID
  rw [List.reverse_append, List.reverse_singleton, List.singleton_append, List.find?_cons]
  by_cases h : x.ID = id <;> simp [h]

theorem lookup_foldl_updateStep_last (l : List OrderBookL2) (m : LevelMap) (id : Int)
    (e v : OrderBookL2) (hv : m.lookup (FormatInt id) = some v)
    (he : lastWithID l id = some e) :
    (l.foldl updateStep m).lookup (FormatInt id) =
      some { v with Size := e.Size, Side := e.Side } := by
  induction l using List.reverseRecOn with
  | nil => simp [lastWithID] at he
  | append_singleton l x ih =>
    rw [List.foldl_append, List.foldl_cons, List.foldl_nil, lookup_updateStep]
    rw [lastWithID_append_singleton] at he
    obtain ⟨w, hw, h1, h2, h3⟩ := lookup_foldl_updateStep_some l m (FormatInt id) v hv
    by_cases hx : x.ID = id
    · rw [if_pos hx] at he
      have hxe : x = e := Option.some.inj he
      subst hxe
      rw [if_pos ((Key_eq_iff x id).2 hx), hw]
      cases w
      cases v
      simp only at h1 h2 h3
      simp [h1, h2, h3]
    · rw [if_neg hx] at he
      rw [if_neg (fun hk => hx ((Key_eq_iff x id).1 hk))]
      exact ih he

theorem lookup_Update_of_not_deleted_not_inserted (o : OderBookLocal)
    (delta : OrderBookL2Delta) (id : Int) (e v : OrderBookL2)
    (hv : o.ob.lookup (FormatInt id) = some v) (hd : ∀ x ∈ delta.Delete, x.ID ≠ id)
    (he : lastWithID delta.Update id = some e) (hi : ∀ x ∈ delta.Insert, x.ID ≠ id) :
    (o.Update delta).ob.lookup (FormatInt id) =
      some { v with Size := e.Size, Side := e.Side } := by
  show (delta.Insert.foldl insertStep _).lookup (FormatInt id) = _
  rw [lookup_foldl_insertStep, lastWithID_eq_none _ _ hi, Option.none_or]
  apply lookup_foldl_updateStep_last _ _ _ _ _ _ he
  rw [lookup_foldl_deleteStep_of_not_mem _ _ _
    (fun x hx hk => hd x hx ((Key_eq_iff x id).1 hk))]
  exact hv

theorem mem_Update_of_not_deleted (o : OderBookLocal) (delta : OrderBookL2Delta) (id : Int)
    (hv : FormatInt id ∈ o.ob) (hd : ∀ x ∈ delta.Delete, x.ID ≠ id) :
    FormatInt id ∈ (o.Update delta).ob := by
  show FormatInt id ∈ delta.Insert.foldl insertStep _
  rw [mem_foldl_insertStep, mem_foldl_updateStep]
  right
  rw [mem_iff_lookup_ne_none, lookup_foldl_deleteStep_of_not_mem _ _ _
    (fun x hx hk => hd x hx ((Key_eq_iff x id).1 hk)), ← mem_iff_lookup_ne_none]
  exact hv

theorem levels_storeExample_zero :
    (storeExample.Update deltaZeroSize).levels =
      [{ bid100 with Size := 0 }, ask1005, bid995] := by
  rfl

theorem storeExample_zero_no_NaN :
    ∀ v ∈ (storeExample.Update deltaZeroSize).levels, v.Price ≠ Float64.NaN := by
  intro v hv
  rw [levels_storeExample_zero] at hv
  simp only [List.mem_cons, List.mem_singleton, List.not_mem_nil, or_false] at hv
  rcases hv with hv | hv | hv <;> subst hv <;> intro hc <;> cases hc

theorem ticker_storeExample_zero (iter : List OrderBookL2) (t : Ticker) (now : Int)
    (h : (storeExample.Update deltaZeroSize).Ranges iter) :
    ∃ ob, GetOrderBook iter emptyOrderBook t now =
      Except.ok (ob, { Bid := 100, BidSize := 0, Ask := Float64.finite (201 / 2), AskSize := 3,
                       Time := now }) := by
  obtain ⟨ob, tk, heq, _, htime, ⟨v, hv, hs, hp, hz⟩, hmax, ⟨w, hw, hws, hwp, hwz⟩, _⟩ :=
    GetOrderBook_ticker_of_sides (storeExample.Update deltaZeroSize) iter t now h
      storeExample_zero_no_NaN
      ⟨{ bid100 with Size := 0 }, by rw [levels_storeExample_zero]; simp, rfl⟩
      ⟨ask1005, by rw [levels_storeExample_zero]; simp, rfl⟩
  have h100 := hmax { bid100 with Size := 0 } (by rw [levels_storeExample_zero]; simp) rfl
  rw [levels_storeExample_zero] at hv hw
  simp only [List.mem_cons, List.mem_singleton, List.not_mem_nil, or_false] at hv hw
  refine ⟨ob, ?_⟩
  rw [heq]
  have hB : tk.Bid = 100 ∧ tk.BidSize = 0 := by
    rcases hv with hv | hv | hv
    · subst hv; exact ⟨hp.symm, hz.symm⟩
    · subst hv; exact absurd hs (by decide)
    · subst hv
      rw [← hp] at h100
      have h2 : Float64.le (100 : Float64) (Float64.finite (199 / 2)) = true := h100
      rw [le_100_995] at h2
      cases h2
  have hA : tk.Ask = Float64.finite (201 / 2) ∧ tk.AskSize = 3 := by
    rcases hw with hw | hw | hw
    · subst hw; exact absurd hws (by decide)
    · subst hw; exact ⟨hwp.symm, hwz.symm⟩
    · subst hw; exact absurd hws (by decide)
  cases tk
  simp only at hB hA htime
  rw [hB.1, hB.2, hA.1, hA.2, htime]

/-- C12, counterexample: in the store of the example the update of the level
at 100.0 (identifier 1) to size 0 does not remove the level; it stays under
its identifier with size 0, and the next ticker is bid 100.0 with bid size 0,
not bid 99.5 with bid size 1. -/
theorem Update_zero_size_not_removed :
    storeExample.ob.lookup (FormatInt 1) = some bid100 ∧
    (∃ e ∈ deltaZeroSize.Update, e.ID = 1 ∧ e.Size = 0) ∧
    FormatInt 1 ∈ (storeExample.Update deltaZeroSize).ob ∧
    (storeExample.Update deltaZeroSize).ob.lookup (FormatInt 1) =
      some { bid100 with Size := 0 } ∧
    (storeExample.Update deltaZeroSize).Ranges [{ bid100 with Size := 0 }, ask1005, bid995] ∧
    (∃ ob, GetOrderBook [{ bid100 with Size := 0 }, ask1005, bid995] emptyOrderBook zeroTicker 0 =
      Except.ok (ob, { Bid := 100, BidSize := 0, Ask := Float64.finite (201 / 2), AskSize := 3,
                       Time := 0 })) ∧
    (100 : Float64) ≠ Float64.finite (199 / 2) := by
  have hr : (storeExample.Update deltaZeroSize).Ranges
      [{ bid100 with Size := 0 }, ask1005, bid995] := by
    unfold OderBookLocal.Ranges
    rw [levels_storeExample_zero]
  refine ⟨rfl, ⟨{ bid100 with Size := 0 }, by simp [deltaZeroSize], rfl, rfl⟩, ?_, rfl, hr,
    ticker_storeExample_zero _ _ _ hr, ?_⟩
  · rw [mem_iff_lookup_ne_none]
    have : (storeExample.Update deltaZeroSize).ob.lookup (FormatInt 1) =
        some { bid100 with Size := 0 } := rfl
    rw [this]
    simp
  · rw [Float64.ofNat_eq]
    intro hc
    have hq : ((100 : Nat) : ℚ) = 199 / 2 := Float64.finite.inj hc
    norm_num at hq

/-- C12, as amended: an update entry of size 0 does not remove a level.  For
every store, every identifier present in it and every delta that has an
update entry of size 0 for the identifier and no delete entry for it, the
identifier is still present after `Update`; when that entry is the last update
entry for the identifier and the delta has no insert entry for it, the stored
level keeps its identifier, price and symbol and has size 0 and the side of
the entry.  In the example the next ticker is bid 100.0 with bid size 0. -/
theorem Update_zero_size_keeps_level (o : OderBookLocal) (delta : OrderBookL2Delta)
    (id : Int) (v : OrderBookL2) (hv : o.ob.lookup (FormatInt id) = some v)
    (hz : ∃ e ∈ delta.Update, e.ID = id ∧ e.Size = 0)
    (hd : ∀ x ∈ delta.Delete, x.ID ≠ id) :
    FormatInt id ∈ (o.Update delta).ob ∧
    (∀ e : OrderBookL2, lastWithID delta.Update id = some e → e.Size = 0 →
      (∀ x ∈ delta.Insert, x.ID ≠ id) →
      (o.Update delta).ob.lookup (FormatInt id) = some { v with Size := 0, Side := e.Side }) ∧
    (∀ (iter : List OrderBookL2) (t : Ticker) (now : Int),
      (storeExample.Update deltaZeroSize).Ranges iter →
      ∃ ob, GetOrderBook iter emptyOrderBook t now =
        Except.ok (ob, { Bid := 100, BidSize := 0, Ask := Float64.finite (201 / 2), AskSize := 3,
                         Time := now })) := by
  have _hz := hz
  refine ⟨?_, ?_, ticker_storeExample_zero⟩
  · apply mem_Update_of_not_deleted o delta id _ hd
    rw [mem_iff_lookup_ne_none, hv]
    simp
  · intro e he hze hi
    rw [lookup_Update_of_not_deleted_not_inserted o delta id e v hv hd he hi, hze]

/-- C12 as amended, on the store and the delta of the example. -/
theorem Update_zero_size_keeps_level_witness :
    FormatInt 1 ∈ (storeExample.Update deltaZeroSize).ob ∧
    (storeExample.Update deltaZeroSize).ob.lookup (FormatInt 1) =
      some { bid100 with Size := 0, Side := "Buy" } :=
  ⟨(Update_zero_size_keeps_level storeExample deltaZeroSize 1 bid100 rfl
      ⟨{ bid100 with Size := 0 }, by simp [deltaZeroSize], rfl, rfl⟩
      (by simp [deltaZeroSize])).1,
   (Update_zero_size_keeps_level storeExample deltaZeroSize 1 bid100 rfl
      ⟨{ bid100 with Size := 0 }, by simp [deltaZeroSize], rfl, rfl⟩
      (by simp [deltaZeroSize])).2.1 { bid100 with Size := 0 } rfl rfl
      (by simp [deltaZeroSize])⟩

/-! ## One map for all symbols -/

theorem mem_of_lookup_foldl_insertStep (l : List OrderBookL2) (m : LevelMap) (k : String)
    (w : OrderBookL2) (h : (l.foldl insertStep m).lookup k = some w) :
    w ∈ l ∨ m.lookup k = some w := by
  induction l using List.reverseRecOn with
  | nil => exact Or.inr h
  | append_singleton l e ih =>
    rw [List.foldl_append, List.foldl_cons, List.foldl_nil, lookup_insertStep] at h
    by_cases hk : e.Key = k
    · rw [if_pos hk] at h
      left
      rw [← Option.some.inj h]
      simp
    · rw [if_neg hk] at h
      rcases ih h with h1 | h1
      · exact Or.inl (by simp [h1])
      · exact Or.inr h1

theorem lookup_of_mem_levels (o : OderBookLocal) (v : OrderBookL2) (h : v ∈ o.levels) :
    ∃ k, o.ob.lookup k = some v := by
  unfold OderBookLocal.levels at h
  rw [List.mem_map] at h
  obtain ⟨⟨k, w⟩, hmem, hw⟩ := h
  simp only at hw
  subst hw
  exact ⟨k, AList.mem_lookup_iff.2 hmem⟩

theorem mem_of_mem_levels_LoadSnapshot (o : OderBookLocal) (l : List OrderBookL2)
    (v : OrderBookL2) (h : v ∈ (o.LoadSnapshot l).1.levels) : v ∈ l := by
  obtain ⟨k, hk⟩ := lookup_of_mem_levels _ v h
  have hk2 : (l.foldl insertStep ∅).lookup k = some v := hk
  rcases mem_of_lookup_foldl_insertStep l ∅ k v hk2 with h1 | h1
  · exact h1
  · simp at h1

/-- C13, counterexample: the store holds the level `ethBid` of the symbol
ETHUSDT; `LoadSnapshot` with two levels of the symbol BTCUSDT, which carry
other identifiers, leaves nothing under the identifier of `ethBid`. -/
theorem LoadSnapshot_other_symbol_lost :
    storeEth.ob.lookup (FormatInt 7) = some ethBid ∧
    (∀ v ∈ [bid100, ask101], v.Symbol = "BTCUSDT" ∧ v.ID ≠ ethBid.ID) ∧
    ethBid.Symbol ≠ "BTCUSDT" ∧
    (storeEth.LoadSnapshot [bid100, ask101]).1.ob.lookup (FormatInt 7) = none ∧
    ethBid ∉ (storeEth.LoadSnapshot [bid100, ask101]).1.levels := by
  refine ⟨by decide, by decide, by decide, by decide, by decide⟩

/-- C13, as amended: the store is one map keyed by the identifier alone and
shared by all symbols.  `LoadSnapshot` with a list whose levels all belong to
the symbol `A` discards every level of the prior state, those of another
symbol included: every level stored afterwards is a level of the list and
belongs to `A`, no level of another symbol is stored under any key, and every
item of the book computed afterwards comes from a level of `A`. -/
theorem LoadSnapshot_discards_other_symbols (o : OderBookLocal) (levels : List OrderBookL2)
    (A : String) (h : ∀ v ∈ levels, v.Symbol = A) :
    (∀ (k : String) (w : OrderBookL2), (o.LoadSnapshot levels).1.ob.lookup k = some w →
      w ∈ levels ∧ w.Symbol = A) ∧
    (∀ (k : String) (v : OrderBookL2), v.Symbol ≠ A →
      (o.LoadSnapshot levels).1.ob.lookup k ≠ some v) ∧
    (∀ (iter : List OrderBookL2) (now : Int), (o.LoadSnapshot levels).1.Ranges iter →
      ∀ x ∈ (GetOrderBook.ob iter emptyOrderBook now).Bids ++
          (GetOrderBook.ob iter emptyOrderBook now).Asks,
        ∃ v ∈ levels, v.Symbol = A ∧ toItem v = x) := by
  have h1 : ∀ (k : String) (w : OrderBookL2),
      (o.LoadSnapshot levels).1.ob.lookup k = some w → w ∈ levels ∧ w.Symbol = A := by
    intro k w hk
    have hk2 : (levels.foldl insertStep ∅).lookup k = some w := hk
    rcases mem_of_lookup_foldl_insertStep levels ∅ k w hk2 with hw | hw
    · exact ⟨hw, h w hw⟩
    · simp at hw
  refine ⟨h1, ?_, ?_⟩
  · intro k v hv hk
    exact hv (h1 k v hk).2
  · intro iter now hr x hx
    rcases List.mem_append.1 hx with hx | hx
    · obtain ⟨v, hv, _, hi⟩ := (mem_Bids_iff _ iter hr now x).1 hx
      have hvl := mem_of_mem_levels_LoadSnapshot o levels v hv
      exact ⟨v, hvl, h v hvl, hi⟩
    · obtain ⟨v, hv, _, hi⟩ := (mem_Asks_iff _ iter hr now x).1 hx
      have hvl := mem_of_mem_levels_LoadSnapshot o levels v hv
      exact ⟨v, hvl, h v hvl, hi⟩

/-- C13 as amended, on `storeEth` and a snapshot of the symbol BTCUSDT. -/
theorem LoadSnapshot_discards_other_symbols_witness :
    (∀ v ∈ [bid100, ask101], v.Symbol = "BTCUSDT") ∧
    (storeEth.LoadSnapshot [bid100, ask101]).1.ob.lookup (FormatInt 7) ≠ some ethBid :=
  ⟨by decide,
    (LoadSnapshot_discards_other_symbols storeEth [bid100, ask101] "BTCUSDT"
      (by decide)).2.1 (FormatInt 7) ethBid (by decide)⟩

end market

namespace parser

open market

/-! ## The level list of a message -/

theorem parseEntry_eq (parseFloat : String → Option Float64) (offset : Int) (side symbol : String)
    (acc : List OrderBookL2) (ie : Nat × List String) :
    parseEntry parseFloat offset side symbol acc ie =
      acc ++ (wellFormedLevel parseFloat offset side symbol ie.1 ie.2).toList := by
  obtain ⟨i, entry⟩ := ie
  unfold parseEntry wellFormedLevel
  match entry with
  | [] => simp
  | [p] => simp
  | p :: z :: rest =>
    simp only [List.length_cons, List.getD_cons_zero, List.getD_cons_succ]
    rw [if_pos (by omega)]
    cases parseFloat p with
    | none => simp
    | some price =>
      cases parseFloat z with
      | none => simp
      | some size => simp

theorem foldl_parseEntry (parseFloat : String → Option Float64) (offset : Int) (side symbol : String)
    (l : List (Nat × List String)) :
    ∀ acc : List OrderBookL2, l.foldl (parseEntry parseFloat offset side symbol) acc =
      acc ++ l.filterMap (fun ie => wellFormedLevel parseFloat offset side symbol ie.1 ie.2) := by
  induction l with
  | nil => intro acc; simp
  | cons ie l ih =>
    intro acc
    rw [List.foldl_cons, ih, parseEntry_eq, List.filterMap_cons]
    cases wellFormedLevel parseFloat offset side symbol ie.1 ie.2 with
    | none => simp
    | some v => simp

theorem parseLevels_eq_expectedLevels (parseFloat : String → Option Float64) (data : OrderbookData)
    (symbol : String) : parseLevels parseFloat data symbol = expectedLevels parseFloat data symbol := by
  unfold parseLevels expectedLevels
  rw [foldl_parseEntry, foldl_parseEntry, List.nil_append]

/-- C14: for every decoded snapshot message `parseOrderbook` returns no error;
the level list it returns and loads is exactly the list of the bid entries
that have at least two fields and whose price and size both parse (side
"Buy", wire order, identifier index + 1) followed by the ask entries of that
kind (side "Sell", wire order, identifier index + 1000); every other entry
is skipped. -/
theorem parseOrderbook_snapshot_skips_malformed (parseFloat : String → Option Float64)
    (p : MessageParser) (msg : OrderbookMsg) (symbol : String) :
    parseOrderbook parseFloat p msg "snapshot" symbol =
      (⟨(p.OrderBookLocal.LoadSnapshot (expectedLevels parseFloat msg.Data symbol)).1⟩,
        Except.ok (Parsed.snapshot (expectedLevels parseFloat msg.Data symbol))) := by
  unfold parseOrderbook
  rw [if_pos rfl, parseLevels_eq_expectedLevels]
  rfl

/-- The level list of `sampleMalformedMsg`: the bids at the wire indices 0 and
3 and the ask at the wire index 1. -/
theorem parseLevels_sampleMalformedMsg :
    parseLevels sampleParseFloat sampleMalformedMsg.Data "BTCUSDT" =
      [{ ID := 1, Price := 100, Side := "Buy", Size := 2, Symbol := "BTCUSDT" },
       { ID := 4, Price := 7, Side := "Buy", Size := 2, Symbol := "BTCUSDT" },
       { ID := 1001, Price := 100, Side := "Sell", Size := 7, Symbol := "BTCUSDT" }] ∧
    expectedLevels sampleParseFloat sampleMalformedMsg.Data "BTCUSDT" =
      parseLevels sampleParseFloat sampleMalformedMsg.Data "BTCUSDT" := by
  constructor <;> decide

/-! ## Delta messages -/

/-- C18: every delta produced by `parseOrderbook` has empty delete and insert
lists, so for every store and every decoded delta message the key set of the
store is the same before and after, and every stored level keeps its
identifier and its price: a delta message changes sizes and sides only. -/
theorem parseOrderbook_delta_only_updates (parseFloat : String → Option Float64)
    (p : MessageParser) (msg : OrderbookMsg) (symbol : String) :
    ∃ d : OrderBookL2Delta,
      parseOrderbook parseFloat p msg "delta" symbol =
        (⟨p.OrderBookLocal.Update d⟩, Except.ok (Parsed.delta d)) ∧
      d.Delete = [] ∧ d.Insert = [] ∧
      (∀ k : String, k ∈ (p.OrderBookLocal.Update d).ob ↔ k ∈ p.OrderBookLocal.ob) ∧
      (∀ (k : String) (v : OrderBookL2), p.OrderBookLocal.ob.lookup k = some v →
        ∃ w, (p.OrderBookLocal.Update d).ob.lookup k = some w ∧
          w.ID = v.ID ∧ w.Price = v.Price) := by
  refine ⟨{ Delete := [], Update := parseLevels parseFloat msg.Data symbol, Insert := [] },
    ?_, rfl, rfl, ?_, ?_⟩
  · unfold parseOrderbook
    rw [if_neg (by decide), if_pos rfl]
  · intro k
    show k ∈ List.foldl updateStep p.OrderBookLocal.ob _ ↔ _
    rw [mem_foldl_updateStep]
  · intro k v hv
    obtain ⟨w, hw, h1, h2, _⟩ :=
      lookup_foldl_updateStep_some (parseLevels parseFloat msg.Data symbol)
        p.OrderBookLocal.ob k v hv
    exact ⟨w, hw, h1, h2⟩

/-! ## The identifiers of a snapshot -/

theorem count_LoadSnapshot (o : OderBookLocal) (l : List OrderBookL2) :
    (o.LoadSnapshot l).1.count = (l.map (fun v => v.ID)).toFinset.card := by
  have hk : (o.LoadSnapshot l).1.ob.keys.toFinset =
      (l.map (fun v => v.ID)).toFinset.image FormatInt := by
    ext k
    rw [List.mem_toFinset, ← AList.mem_keys, Finset.mem_image]
    show k ∈ l.foldl insertStep ∅ ↔ _
    rw [mem_foldl_insertStep]
    constructor
    · rintro (⟨v, hv, hkv⟩ | h)
      · exact ⟨v.ID, by rw [List.mem_toFinset, List.mem_map]; exact ⟨v, hv, rfl⟩, hkv⟩
      · exact absurd h (AList.not_mem_empty k)
    · rintro ⟨id, hid, hkv⟩
      rw [List.mem_toFinset, List.mem_map] at hid
      obtain ⟨v, hv, hvid⟩ := hid
      exact Or.inl ⟨v, hv, by rw [OrderBookL2.Key, hvid, hkv]⟩
  unfold OderBookLocal.count
  rw [← List.toFinset_card_of_nodup (AList.keys_nodup _), hk,
    Finset.card_image_of_injective _ FormatInt_injective]

theorem wellFormedLevel_of_WellFormed (parseFloat : String → Option Float64) (offset : Int)
    (side symbol : String) (i : Nat) (entry : List String) (h : WellFormed parseFloat entry) :
    ∃ v, wellFormedLevel parseFloat offset side symbol i entry = some v ∧
      v.ID = (i : Int) + offset ∧ v.Side = side := by
  obtain ⟨h2, hp, hz⟩ := h
  unfold wellFormedLevel
  rw [if_pos h2]
  cases h0 : parseFloat (entry.getD 0 "") with
  | none => rw [h0] at hp; simp at hp
  | some price =>
    cases h1 : parseFloat (entry.getD 1 "") with
    | none => rw [h1] at hz; simp at hz
    | some size => exact ⟨_, rfl, rfl, rfl⟩

theorem wellFormedLevel_side (parseFloat : String → Option Float64) (offset : Int)
    (side symbol : String) (i : Nat) (entry : List String) (v : OrderBookL2)
    (h : wellFormedLevel parseFloat offset side symbol i entry = some v) :
    v.Side = side ∧ v.ID = (i : Int) + offset := by
  unfold wellFormedLevel at h
  split at h
  · split at h
    · cases h; exact ⟨rfl, rfl⟩
    · cases h
  · cases h

theorem ids_filterMap_enumFrom (parseFloat : String → Option Float64) (offset : Int)
    (side symbol : String) (l : List (List String)) :
    ∀ n : Nat, (∀ e ∈ l, WellFormed parseFloat e) →
      ((l.enumFrom n).filterMap
          (fun ie => wellFormedLevel parseFloat offset side symbol ie.1 ie.2)).map
        (fun v => v.ID) =
      (List.range' n l.length).map (fun i : Nat => (i : Int) + offset) := by
  induction l with
  | nil => intro n _; rfl
  | cons e l ih =>
    intro n h
    obtain ⟨v, hv, hid, _⟩ :=
      wellFormedLevel_of_WellFormed parseFloat offset side symbol n e (h e (by simp))
    rw [List.enumFrom_cons, List.filterMap_cons]
    simp only [hv]
    rw [List.map_cons, ih (n + 1) (fun x hx => h x (by simp [hx])), List.length_cons,
      List.range'_succ, List.map_cons, hid]

theorem ids_expectedLevels (parseFloat : String → Option Float64) (data : OrderbookData)
    (symbol : String) (hB : ∀ e ∈ data.B, WellFormed parseFloat e)
    (hA : ∀ e ∈ data.A, WellFormed parseFloat e) :
    (expectedLevels parseFloat data symbol).map (fun v => v.ID) =
      (List.range data.B.length).map (fun i : Nat => (i : Int) + 1) ++
        (List.range data.A.length).map (fun i : Nat => (i : Int) + 1000) := by
  unfold expectedLevels List.enum
  rw [List.map_append,
    ids_filterMap_enumFrom parseFloat 1 "Buy" symbol data.B 0 hB,
    ids_filterMap_enumFrom parseFloat 1000 "Sell" symbol data.A 0 hA,
    List.range_eq_range', List.range_eq_range']

theorem nodup_snapshot_ids (b a : Nat) :
    ((List.range b).map (fun i : Nat => (i : Int) + 1) ++
      (List.range a).map (fun i : Nat => (i : Int) + 1000)).Nodup ↔ b ≤ 999 ∨ a = 0 := by
  rw [List.nodup_append]
  constructor
  · rintro ⟨_, _, hdis⟩
    by_contra hcon
    have hb : 999 < b := by omega
    have ha : 0 < a := by omega
    refine hdis (a := (1000 : Int)) ?_ ?_
    · rw [List.mem_map]
      exact ⟨999, List.mem_range.2 hb, by norm_num⟩
    · rw [List.mem_map]
      exact ⟨0, List.mem_range.2 ha, by norm_num⟩
  · intro h
    refine ⟨?_, ?_, ?_⟩
    · exact (List.nodup_range b).map (fun x y hxy => by
        have h2 : (x : Int) + 1 = (y : Int) + 1 := hxy
        omega)
    · exact (List.nodup_range a).map (fun x y hxy => by
        have h2 : (x : Int) + 1000 = (y : Int) + 1000 := hxy
        omega)
    · intro x hx1 hx2
      rw [List.mem_map] at hx1 hx2
      obtain ⟨i, hi, hix⟩ := hx1
      obtain ⟨j, hj, hjx⟩ := hx2
      rw [List.mem_range] at hi hj
      omega

theorem card_toFinset_eq_length_iff (l : List Int) : l.toFinset.card = l.length ↔ l.Nodup := by
  have h := @Multiset.toFinset_card_eq_card_iff_nodup Int _ (l : Multiset Int)
  simpa using h

theorem lastWithID_append_cons (l1 : List OrderBookL2) (x : OrderBookL2)
    (l2 : List OrderBookL2) (id : Int) (hx : x.ID = id) (h2 : ∀ y ∈ l2, y.ID ≠ id) :
    lastWithID (l1 ++ x :: l2) id = some x := by
  induction l2 using List.reverseRecOn with
  | nil => rw [lastWithID_append_singleton, if_pos hx]
  | append_singleton l2 y ih =>
    have e : l1 ++ x :: (l2 ++ [y]) = (l1 ++ x :: l2) ++ [y] := by simp
    rw [e, lastWithID_append_singleton, if_neg (h2 y (by simp))]
    exact ih (fun z hz => h2 z (by simp [hz]))

theorem parseOrderbook_snapshot_store (parseFloat : String → Option Float64) (p : MessageParser)
    (msg : OrderbookMsg) (symbol : String) :
    (parseOrderbook parseFloat p msg "snapshot" symbol).1.OrderBookLocal =
      (p.OrderBookLocal.LoadSnapshot (expectedLevels parseFloat msg.Data symbol)).1 := by
  unfold parseOrderbook
  rw [if_pos rfl, parseLevels_eq_expectedLevels]
  rfl

theorem snapshot_collision (parseFloat : String → Option Float64) (p : MessageParser)
    (msg : OrderbookMsg) (symbol : String)
    (hB : ∀ e ∈ msg.Data.B, WellFormed parseFloat e)
    (hA : ∀ e ∈ msg.Data.A, WellFormed parseFloat e)
    (hb : 1000 ≤ msg.Data.B.length) (ha : 1 ≤ msg.Data.A.length) :
    ∃ bid ask : OrderBookL2,
      bid ∈ expectedLevels parseFloat msg.Data symbol ∧ bid.ID = 1000 ∧ bid.Side = "Buy" ∧
      wellFormedLevel parseFloat 1000 "Sell" symbol 0 (msg.Data.A.getD 0 []) = some ask ∧
      ask.ID = 1000 ∧ ask.Side = "Sell" ∧
      (parseOrderbook parseFloat p msg "snapshot" symbol).1.OrderBookLocal.ob.lookup
        (FormatInt 1000) = some ask := by
  cases hAeq : msg.Data.A with
  | nil => rw [hAeq] at ha; simp at ha
  | cons a0 rest =>
    rw [hAeq] at hA
    obtain ⟨ask, hask, haskid, haskside⟩ :=
      wellFormedLevel_of_WellFormed parseFloat 1000 "Sell" symbol 0 a0 (hA a0 (by simp))
    have hrest := ids_filterMap_enumFrom parseFloat 1000 "Sell" symbol rest 1
      (fun e he => hA e (by simp [he]))
    have hbids := ids_filterMap_enumFrom parseFloat 1 "Buy" symbol msg.Data.B 0 hB
    have hL : expectedLevels parseFloat msg.Data symbol =
        msg.Data.B.enum.filterMap
            (fun ie => wellFormedLevel parseFloat 1 "Buy" symbol ie.1 ie.2) ++
          ask :: (rest.enumFrom 1).filterMap
            (fun ie => wellFormedLevel parseFloat 1000 "Sell" symbol ie.1 ie.2) := by
      unfold expectedLevels
      rw [hAeq, List.enum_cons, List.filterMap_cons]
      simp only [hask]
    have hbid : ∃ bid ∈ msg.Data.B.enum.filterMap
        (fun ie => wellFormedLevel parseFloat 1 "Buy" symbol ie.1 ie.2), bid.ID = 1000 := by
      have hmem : (1000 : Int) ∈ (List.range' 0 msg.Data.B.length).map
          (fun i : Nat => (i : Int) + 1) := by
        rw [List.mem_map]
        exact ⟨999, by rw [List.mem_range'_1]; omega, by norm_num⟩
      rw [← hbids] at hmem
      rw [List.mem_map] at hmem
      exact hmem
    obtain ⟨bid, hbidmem, hbidid⟩ := hbid
    have hbidside : bid.Side = "Buy" := by
      rw [List.mem_filterMap] at hbidmem
      obtain ⟨ie, _, hie⟩ := hbidmem
      exact (wellFormedLevel_side parseFloat 1 "Buy" symbol ie.1 ie.2 bid hie).1
    have hne : ∀ y ∈ (rest.enumFrom 1).filterMap
        (fun ie => wellFormedLevel parseFloat 1000 "Sell" symbol ie.1 ie.2), y.ID ≠ 1000 := by
      intro y hy
      have hyid : y.ID ∈ (List.range' 1 rest.length).map (fun i : Nat => (i : Int) + 1000) := by
        rw [← hrest, List.mem_map]
        exact ⟨y, hy, rfl⟩
      rw [List.mem_map] at hyid
      obtain ⟨i, hi, hiy⟩ := hyid
      rw [List.mem_range'_1] at hi
      omega
    refine ⟨bid, ask, ?_, hbidid, hbidside, ?_, haskid.trans (by norm_num), haskside, ?_⟩
    · rw [hL]
      exact List.mem_append_left _ hbidmem
    · simpa using hask
    · rw [parseOrderbook_snapshot_store]
      show (List.foldl insertStep ∅ _).lookup (FormatInt 1000) = _
      rw [lookup_foldl_insertStep, hL,
        lastWithID_append_cons _ ask _ 1000 (haskid.trans (by norm_num)) hne]
      rfl

/-- C19: for every decoded snapshot message whose entries are all well formed,
with `b` bid entries and `a` ask entries, the bids get the identifiers 1 to
`b` and the asks the identifiers 1000 to 999 + `a`, and the store after
`parseOrderbook` holds exactly `b + a` levels if and only if `b ≤ 999` or
`a = 0`.  With `b ≥ 1000` and `a ≥ 1` the bid at index 999 and the ask at
index 0 both have the identifier 1000, and the store holds the ask under it. -/
theorem parseOrderbook_snapshot_count (parseFloat : String → Option Float64) (p : MessageParser)
    (msg : OrderbookMsg) (symbol : String)
    (hB : ∀ e ∈ msg.Data.B, WellFormed parseFloat e)
    (hA : ∀ e ∈ msg.Data.A, WellFormed parseFloat e) :
    (parseLevels parseFloat msg.Data symbol).map (fun v => v.ID) =
      (List.range msg.Data.B.length).map (fun i : Nat => (i : Int) + 1) ++
        (List.range msg.Data.A.length).map (fun i : Nat => (i : Int) + 1000) ∧
    ((parseOrderbook parseFloat p msg "snapshot" symbol).1.OrderBookLocal.count =
        msg.Data.B.length + msg.Data.A.length ↔
      msg.Data.B.length ≤ 999 ∨ msg.Data.A.length = 0) ∧
    (1000 ≤ msg.Data.B.length → 1 ≤ msg.Data.A.length →
      ∃ bid ask : OrderBookL2,
        bid ∈ parseLevels parseFloat msg.Data symbol ∧ bid.ID = 1000 ∧ bid.Side = "Buy" ∧
        wellFormedLevel parseFloat 1000 "Sell" symbol 0 (msg.Data.A.getD 0 []) = some ask ∧
        ask.ID = 1000 ∧ ask.Side = "Sell" ∧
        (parseOrderbook parseFloat p msg "snapshot" symbol).1.OrderBookLocal.ob.lookup
          (FormatInt 1000) = some ask) := by
  have hids := ids_expectedLevels parseFloat msg.Data symbol hB hA
  refine ⟨?_, ?_, ?_⟩
  · rw [parseLevels_eq_expectedLevels]
    exact hids
  · rw [parseOrderbook_snapshot_store, count_LoadSnapshot, hids, ← nodup_snapshot_ids,
      ← card_toFinset_eq_length_iff]
    simp
  · intro hb ha
    rw [parseLevels_eq_expectedLevels]
    exact snapshot_collision parseFloat p msg symbol hB hA hb ha

theorem sampleBookMsg_wellFormed :
    (∀ e ∈ sampleBookMsg.Data.B, WellFormed sampleParseFloat e) ∧
    (∀ e ∈ sampleBookMsg.Data.A, WellFormed sampleParseFloat e) := by
  constructor
  · intro e he
    simp only [sampleBookMsg, List.mem_singleton] at he
    subst he
    exact ⟨by decide, by decide, by decide⟩
  · intro e he
    simp only [sampleBookMsg, List.mem_singleton] at he
    subst he
    exact ⟨by decide, by decide, by decide⟩

theorem sampleDeepMsg_wellFormed :
    (∀ e ∈ sampleDeepMsg.Data.B, WellFormed sampleParseFloat e) ∧
    (∀ e ∈ sampleDeepMsg.Data.A, WellFormed sampleParseFloat e) := by
  constructor
  · intro e he
    have he2 : e = ["7", "2"] := List.eq_of_mem_replicate he
    subst he2
    exact ⟨by decide, by decide, by decide⟩
  · intro e he
    simp only [sampleDeepMsg, List.mem_singleton] at he
    subst he
    exact ⟨by decide, by decide, by decide⟩

/-- C19 on `sampleBookMsg`, where one bid and one ask give two levels, and on
`sampleDeepMsg`, where 1000 bids and one ask do not give 1001 levels and the
level under the identifier 1000 is the ask. -/
theorem parseOrderbook_snapshot_count_witness :
    (((∀ e ∈ sampleBookMsg.Data.B, WellFormed sampleParseFloat e) ∧
        (∀ e ∈ sampleBookMsg.Data.A, WellFormed sampleParseFloat e)) ∧
      ((parseOrderbook sampleParseFloat ⟨NewOrderBookLocal⟩ sampleBookMsg "snapshot"
            "BTCUSDT").1.OrderBookLocal.count =
          sampleBookMsg.Data.B.length + sampleBookMsg.Data.A.length ↔
        sampleBookMsg.Data.B.length ≤ 999 ∨ sampleBookMsg.Data.A.length = 0)) ∧
    (¬ (parseOrderbook sampleParseFloat ⟨NewOrderBookLocal⟩ sampleDeepMsg "snapshot"
          "BTCUSDT").1.OrderBookLocal.count =
        sampleDeepMsg.Data.B.length + sampleDeepMsg.Data.A.length ∧
      ∃ ask : OrderBookL2, ask.Side = "Sell" ∧
        (parseOrderbook sampleParseFloat ⟨NewOrderBookLocal⟩ sampleDeepMsg "snapshot"
          "BTCUSDT").1.OrderBookLocal.ob.lookup (FormatInt 1000) = some ask) := by
  have hlenB : sampleDeepMsg.Data.B.length = 1000 := List.length_replicate 1000 _
  have hlenA : sampleDeepMsg.Data.A.length = 1 := rfl
  have h := parseOrderbook_snapshot_count sampleParseFloat ⟨NewOrderBookLocal⟩ sampleDeepMsg
    "BTCUSDT" sampleDeepMsg_wellFormed.1 sampleDeepMsg_wellFormed.2
  refine ⟨⟨sampleBookMsg_wellFormed,
    (parseOrderbook_snapshot_count sampleParseFloat ⟨NewOrderBookLocal⟩ sampleBookMsg "BTCUSDT"
      sampleBookMsg_wellFormed.1 sampleBookMsg_wellFormed.2).2.1⟩, ?_, ?_⟩
  · intro hc
    have := h.2.1.1 hc
    omega
  · obtain ⟨_, ask, _, _, _, _, _, hside, hlook⟩ := h.2.2 (by omega) (by omega)
    exact ⟨ask, hside, hlook⟩

/-! ## Topics -/

theorem foldl_splitStep_no_dot (cs : List Char) (h : ∀ c ∈ cs, c ≠ '.') :
    ∀ st : SplitState, cs.foldl splitStep st =
      { result := st.result, currentPart := ⟨st.currentPart.data ++ cs⟩,
        inDots := if cs = [] then st.inDots else false } := by
  induction cs with
  | nil => intro st; simp
  | cons c cs ih =>
    intro st
    have hc : c ≠ '.' := h c (by simp)
    rw [List.foldl_cons, ih (fun x hx => h x (by simp [hx]))]
    unfold splitStep
    rw [if_neg hc]
    simp [String.data_append, String.singleton]

theorem data_intercalate_go (l : List String) :
    ∀ acc : String, (String.intercalate.go acc "." l).data =
      acc.data ++ l.flatMap (fun p => '.' :: p.data) := by
  induction l with
  | nil => intro acc; simp [String.intercalate.go]
  | cons p l ih =>
    intro acc
    rw [String.intercalate.go, ih]
    simp [String.data_append]

theorem splitFinish_foldl (rest : List String)
    (h : ∀ p ∈ rest, p ≠ "" ∧ ∀ c ∈ p.data, c ≠ '.') :
    ∀ (res : List String) (q : String), q ≠ "" →
      splitFinish ((rest.flatMap (fun p => '.' :: p.data)).foldl splitStep
        { result := res, currentPart := q, inDots := false }) = res ++ q :: rest := by
  induction rest with
  | nil =>
    intro res q hq
    simp [splitFinish, hq]
  | cons p rest ih =>
    intro res q hq
    obtain ⟨hp, hpd⟩ := h p (by simp)
    have hpdata : p.data ≠ [] := fun hd => hp (String.ext hd)
    rw [List.flatMap_cons, List.foldl_append, List.foldl_cons]
    have h1 : splitStep { result := res, currentPart := q, inDots := false } '.' =
        { result := res ++ [q], currentPart := "", inDots := true } := by
      simp [splitStep, hq]
    rw [h1, foldl_splitStep_no_dot p.data hpd]
    have he : ("" : String).data = [] := rfl
    simp only [hpdata, if_false, he, List.nil_append]
    rw [ih (fun x hx => h x (by simp [hx])) (res ++ [q]) p hp]
    simp

/-- C16: for every list of non-empty strings that contain no '.' (the empty
list included), `splitTopic` applied to the strings joined with "." returns
exactly that list; `splitTopic "orderbook.50.BTCUSDT"` is
`["orderbook", "50", "BTCUSDT"]`, so the channel is part 0 and the symbol
part 2. -/
theorem splitTopic_join (parts : List String)
    (h : ∀ p ∈ parts, p ≠ "" ∧ ∀ c ∈ p.data, c ≠ '.') :
    splitTopic (String.intercalate "." parts) = parts ∧
    splitTopic "orderbook.50.BTCUSDT" = ["orderbook", "50", "BTCUSDT"] ∧
    (splitTopic "orderbook.50.BTCUSDT")[0]? = some "orderbook" ∧
    (splitTopic "orderbook.50.BTCUSDT")[2]? = some "BTCUSDT" := by
  refine ⟨?_, by decide, by decide, by decide⟩
  cases parts with
  | nil => decide
  | cons p rest =>
    obtain ⟨hp, hpd⟩ := h p (by simp)
    have hpdata : p.data ≠ [] := fun hd => hp (String.ext hd)
    unfold splitTopic
    rw [String.intercalate, data_intercalate_go, List.foldl_append,
      foldl_splitStep_no_dot p.data hpd]
    have he : ("" : String).data = [] := rfl
    simp only [hpdata, if_false, he, List.nil_append]
    rw [splitFinish_foldl rest (fun x hx => h x (by simp [hx])) [] p hp]
    rfl

/-- C16 on the three parts of an order-book topic. -/
theorem splitTopic_join_witness :
    (∀ p ∈ ["orderbook", "50", "BTCUSDT"], p ≠ "" ∧ ∀ c ∈ p.data, c ≠ '.') ∧
    splitTopic (String.intercalate "." ["orderbook", "50", "BTCUSDT"]) =
      ["orderbook", "50", "BTCUSDT"] :=
  ⟨by decide, (splitTopic_join ["orderbook", "50", "BTCUSDT"] (by decide)).1⟩

end parser

namespace handler

open market

/-! ## The trade tape -/

theorem trades_insert (m : AList (fun _ : String => List Trade)) (k s : String)
    (l : List Trade) :
    ((m.insert k l).lookup s).getD [] = if k = s then l else (m.lookup s).getD [] := by
  by_cases h : k = s
  · subst h; simp [AList.lookup_insert]
  · rw [if_neg h, AList.lookup_insert_ne (Ne.symm h)]

theorem MaxTradeCount_addTrade (h : WebSocketHandler) (x : Option Trade) :
    (h.addTrade x).MaxTradeCount = h.MaxTradeCount := by
  unfold WebSocketHandler.addTrade
  cases x with
  | none => rfl
  | some t =>
    simp only
    split
    · rfl
    · split <;> rfl

theorem trades_addTrade (h : WebSocketHandler) (x : Option Trade) (s : String)
    (hmax : h.MaxTradeCount = 100) :
    (h.addTrade x).trades s =
      match x with
      | none => h.trades s
      | some t =>
        if t.Symbol = "" ∨ t.Symbol ≠ s then h.trades s
        else if 100 < (h.trades s ++ [t]).length then (h.trades s ++ [t]).drop 1
        else h.trades s ++ [t] := by
  cases x with
  | none => rfl
  | some t =>
    simp only
    unfold WebSocketHandler.addTrade
    simp only
    by_cases he : t.Symbol = ""
    · simp [he]
    · rw [if_neg he]
      by_cases hs : t.Symbol = s
      · subst hs
        have hcond : (t.Symbol = "" ∨ t.Symbol ≠ t.Symbol) = False := by simp [he]
        simp only [hcond, if_false, hmax, WebSocketHandler.trades, trades_insert, if_true]
        by_cases hlen : 100 < ((h.TradeMap.lookup t.Symbol).getD [] ++ [t]).length
        · have : ((((h.TradeMap.lookup t.Symbol).getD [] ++ [t]).length : Nat) : Int) > 100 := by
            exact_mod_cast hlen
          rw [if_pos this, if_pos hlen]
          simp only [trades_insert, if_true]
        · have : ¬ ((((h.TradeMap.lookup t.Symbol).getD [] ++ [t]).length : Nat) : Int) > 100 := by
            intro hc
            exact hlen (by exact_mod_cast hc)
          rw [if_neg this, if_neg hlen]
          simp only [trades_insert, if_true]
      · have hcond : (t.Symbol = "" ∨ t.Symbol ≠ s) = True := by simp [hs]
        simp only [hcond, if_true]
        split
        · simp only [WebSocketHandler.trades, trades_insert, if_neg hs]
        · simp only [WebSocketHandler.trades, trades_insert, if_neg hs]

theorem tradesWith_append_singleton (trades : List (Option Trade)) (x : Option Trade)
    (s : String) :
    tradesWith (trades ++ [x]) s =
      tradesWith trades s ++
        (match x with
         | none => []
         | some t => if t.Symbol = s then [t] else []) := by
  unfold tradesWith
  rw [List.filterMap_append, List.filter_append]
  cases x with
  | none => simp
  | some t =>
    by_cases h : t.Symbol = s <;> simp [h]

theorem lastN_snoc (l : List Trade) (t : Trade) :
    (if 100 < (lastN 100 l ++ [t]).length then (lastN 100 l ++ [t]).drop 1
      else lastN 100 l ++ [t]) = lastN 100 (l ++ [t]) := by
  unfold lastN
  rw [List.length_append, List.length_append, List.length_drop, List.length_singleton]
  by_cases h : 100 ≤ l.length
  · rw [if_pos (by omega), List.drop_append_of_le_length (by rw [List.length_drop]; omega),
      List.drop_drop, List.drop_append_of_le_length (by omega)]
    congr 2
    omega
  · rw [if_neg (by omega)]
    have h1 : l.length - 100 = 0 := by omega
    have h2 : l.length + 1 - 100 = 0 := by omega
    rw [h1, h2, List.drop_zero, List.drop_zero]

theorem foldl_addTrade_invariant (trades : List (Option Trade)) (s : String) :
    (trades.foldl WebSocketHandler.addTrade NewWebSocketHandler).MaxTradeCount = 100 ∧
    (trades.foldl WebSocketHandler.addTrade NewWebSocketHandler).trades s =
      if s = "" then [] else lastN 100 (tradesWith trades s) := by
  induction trades using List.reverseRecOn with
  | nil =>
    refine ⟨rfl, ?_⟩
    split <;> rfl
  | append_singleton trades x ih =>
    obtain ⟨hmax, htr⟩ := ih
    rw [List.foldl_append, List.foldl_cons, List.foldl_nil]
    refine ⟨by rw [MaxTradeCount_addTrade, hmax], ?_⟩
    rw [trades_addTrade _ x s hmax, htr, tradesWith_append_singleton]
    cases x with
    | none => simp
    | some t =>
      simp only
      by_cases hs : s = ""
      · subst hs
        have : (t.Symbol = "" ∨ t.Symbol ≠ "") := by
          by_cases h : t.Symbol = ""
          · exact Or.inl h
          · exact Or.inr h
        rw [if_pos this]
        simp
      · simp only [if_neg hs]
        by_cases hts : t.Symbol = s
        · have hne : ¬ (t.Symbol = "" ∨ t.Symbol ≠ s) := by
            rintro (h | h)
            · exact hs (hts ▸ h)
            · exact h hts
          rw [if_neg hne, if_pos hts]
          exact lastN_snoc _ t
        · rw [if_pos (Or.inr hts), if_neg hts, List.append_nil]

theorem length_lastN_le {α : Type} (k : Nat) (l : List α) : (lastN k l).length ≤ k := by
  unfold lastN
  rw [List.length_drop]
  omega

/-- C17: for a handler made by `NewWebSocketHandler` and every sequence of
`addTrade` calls, the list kept for a symbol never holds more than 100 trades
and is the last min(n, 100) of the n non-nil trades of the sequence that
carry the symbol, in arrival order; no list is kept for the empty symbol; a
nil trade and a trade with an empty symbol leave the handler, and so the
trade map, unchanged. -/
theorem addTrade_keeps_last_100 (trades : List (Option Trade)) (s : String) (hs : s ≠ "") :
    ((trades.foldl WebSocketHandler.addTrade NewWebSocketHandler).trades s).length ≤ 100 ∧
    (trades.foldl WebSocketHandler.addTrade NewWebSocketHandler).trades s =
      lastN (min (tradesWith trades s).length 100) (tradesWith trades s) ∧
    (trades.foldl WebSocketHandler.addTrade NewWebSocketHandler).trades "" = [] ∧
    (∀ h : WebSocketHandler, h.addTrade none = h) ∧
    (∀ (h : WebSocketHandler) (t : Trade), t.Symbol = "" → h.addTrade (some t) = h) := by
  have hinv := (foldl_addTrade_invariant trades s).2
  rw [if_neg hs] at hinv
  have hempty := (foldl_addTrade_invariant trades "").2
  rw [if_pos rfl] at hempty
  refine ⟨?_, ?_, hempty, fun _ => rfl, ?_⟩
  · rw [hinv]
    exact length_lastN_le 100 _
  · rw [hinv]
    unfold lastN
    congr 1
    omega
  · intro h t ht
    unfold WebSocketHandler.addTrade
    simp only
    rw [if_pos ht]

/-- C17 on three arguments: a trade, a nil pointer and a second trade. -/
theorem addTrade_keeps_last_100_witness :
    "BTCUSDT" ≠ "" ∧
    ([some (sampleTrade "a"), none, some (sampleTrade "b")].foldl WebSocketHandler.addTrade
        NewWebSocketHandler).trades "BTCUSDT" =
      lastN (min (tradesWith [some (sampleTrade "a"), none, some (sampleTrade "b")]
          "BTCUSDT").length 100)
        (tradesWith [some (sampleTrade "a"), none, some (sampleTrade "b")] "BTCUSDT") :=
  ⟨by decide,
    (addTrade_keeps_last_100 [some (sampleTrade "a"), none, some (sampleTrade "b")] "BTCUSDT"
      (by decide)).2.1⟩

end handler

namespace socket

open market

/-! ## Subscriptions -/

theorem mem_foldl_insert_true (topics : List String) (m : AList (fun _ : String => Bool))
    (k : String) :
    k ∈ topics.foldl (fun m topic => m.insert topic true) m ↔ k ∈ topics ∨ k ∈ m := by
  induction topics using List.reverseRecOn with
  | nil => simp
  | append_singleton topics t ih =>
    rw [List.foldl_append, List.foldl_cons, List.foldl_nil, AList.mem_insert, ih,
      List.mem_append, List.mem_singleton]
    tauto

theorem mem_foldl_erase (topics : List String) (m : AList (fun _ : String => Bool))
    (k : String) :
    k ∈ topics.foldl (fun m topic => m.erase topic) m ↔ k ∉ topics ∧ k ∈ m := by
  induction topics using List.reverseRecOn with
  | nil => simp
  | append_singleton topics t ih =>
    rw [List.foldl_append, List.foldl_cons, List.foldl_nil, AList.mem_erase, ih,
      List.mem_append, List.mem_singleton]
    tauto

theorem Subscription_sendJSON (c : WebSocketClient) (v : Frame) (w : Option String) :
    (c.sendJSON v w).1.Subscription = c.Subscription := by
  unfold WebSocketClient.sendJSON
  cases c.Conn <;> rfl

theorem mem_Subscription_run (c : WebSocketClient) (call : Call) (k : String) :
    k ∈ (Call.run c call).Subscription ↔
      match call with
      | Call.Subscibe topics _ => k ∈ topics ∨ k ∈ c.Subscription
      | Call.Unsubscribe topics _ => k ∉ topics ∧ k ∈ c.Subscription := by
  cases call with
  | Subscibe topics w =>
    simp only [Call.run, WebSocketClient.Subscibe, Subscription_sendJSON]
    exact mem_foldl_insert_true topics c.Subscription k
  | Unsubscribe topics w =>
    simp only [Call.run, WebSocketClient.Unsubscribe, Subscription_sendJSON]
    exact mem_foldl_erase topics c.Subscription k

theorem Active_nil (t : String) : ¬ Active [] t := by
  rintro ⟨pre, topics, w, post, h, _⟩
  have := congrArg List.length h
  simp at this
  omega

theorem Active_append_singleton (calls : List Call) (call : Call) (t : String) :
    Active (calls ++ [call]) t ↔
      match call with
      | Call.Subscibe topics _ => t ∈ topics ∨ Active calls t
      | Call.Unsubscribe topics _ => t ∉ topics ∧ Active calls t := by
  constructor
  · rintro ⟨pre, topics, w, post, h, ht, hpost⟩
    rcases List.eq_nil_or_concat post with hp | ⟨post2, x, hp⟩
    · subst hp
      have h2 := List.append_inj' h rfl
      have hx : call = Call.Subscibe topics w := by simpa using h2.2
      subst hx
      exact Or.inl ht
    · subst hp
      have e : pre ++ Call.Subscibe topics w :: post2.concat x =
          (pre ++ Call.Subscibe topics w :: post2) ++ [x] := by simp
      rw [e] at h
      have h2 := List.append_inj' h rfl
      have hx : call = x := by simpa using h2.2
      subst hx
      have hact : Active calls t :=
        ⟨pre, topics, w, post2, h2.1, ht, fun us w2 hm => hpost us w2 (by simp [hm])⟩
      cases call with
      | Subscibe ts w3 => exact Or.inr hact
      | Unsubscribe us w3 => exact ⟨hpost us w3 (by simp), hact⟩
  · intro h
    cases call with
    | Subscibe ts w3 =>
      rcases h with h | ⟨pre, topics, w, post, hc, ht, hpost⟩
      · exact ⟨calls, ts, w3, [], rfl, h, fun us w2 hm => by simp at hm⟩
      · refine ⟨pre, topics, w, post ++ [Call.Subscibe ts w3], by simp [hc], ht, ?_⟩
        intro us w2 hm
        rcases List.mem_append.1 hm with hm | hm
        · exact hpost us w2 hm
        · simp at hm
    | Unsubscribe us w3 =>
      obtain ⟨hnot, pre, topics, w, post, hc, ht, hpost⟩ := h
      refine ⟨pre, topics, w, post ++ [Call.Unsubscribe us w3], by simp [hc], ht, ?_⟩
      intro us2 w2 hm
      rcases List.mem_append.1 hm with hm | hm
      · exact hpost us2 w2 hm
      · simp only [List.mem_singleton, Call.Unsubscribe.injEq] at hm
        rw [hm.1]
        exact hnot

theorem mem_Subscription_iff_Active (c0 : WebSocketClient) (calls : List Call)
    (h0 : c0.Subscription.keys = []) (t : String) :
    t ∈ (calls.foldl Call.run c0).Subscription ↔ Active calls t := by
  induction calls using List.reverseRecOn with
  | nil =>
    constructor
    · intro h
      rw [List.foldl_nil, AList.mem_keys, h0] at h
      simp at h
    · intro h
      exact absurd h (Active_nil t)
  | append_singleton calls call ih =>
    rw [List.foldl_append, List.foldl_cons, List.foldl_nil, mem_Subscription_run,
      Active_append_singleton]
    cases call with
    | Subscibe ts w => simp only [ih]
    | Unsubscribe us w => simp only [ih]

theorem tyrReconnect_of_succeeds (c : WebSocketClient) (iter : List String) (net : Network)
    (hs : net.Succeeds c) :
    ∃ c2 : WebSocketClient, c.tyrReconnect iter net = Except.ok c2 ∧
      c2.requests =
        (if iter = [] then []
          else [{ Topic := "", Typ := "", Ts := 0, Op := "subscribe", Args := iter }]) ∧
      c2.Subscription = iter.foldl (fun m topic => m.insert topic true) c.Subscription := by
  obtain ⟨hd, ha, hw⟩ := hs
  unfold WebSocketClient.tyrReconnect WebSocketClient.Connect
  simp only [hd]
  by_cases hcred : c.APIKey ≠ "" ∧ c.APISecret ≠ ""
  · have hauth : net.authWriteErr = none := by
      rcases ha with h | h | h
      · exact absurd h hcred.1
      · exact absurd h hcred.2
      · exact h
    rw [if_pos hcred]
    simp only [WebSocketClient.authenticate, WebSocketClient.sendJSON, hauth]
    cases iter with
    | nil =>
      rw [if_neg (show ¬ ([] : List String).length > 0 by simp)]
      exact ⟨_, rfl, rfl, rfl⟩
    | cons t iter =>
      rw [if_pos (show (t :: iter).length > 0 by simp)]
      simp only [WebSocketClient.Subscibe, WebSocketClient.sendJSON, hw]
      exact ⟨_, rfl, rfl, rfl⟩
  · rw [if_neg hcred]
    simp only []
    cases iter with
    | nil =>
      rw [if_neg (show ¬ ([] : List String).length > 0 by simp)]
      exact ⟨_, rfl, rfl, rfl⟩
    | cons t iter =>
      rw [if_pos (show (t :: iter).length > 0 by simp)]
      simp only [WebSocketClient.Subscibe, WebSocketClient.sendJSON, hw]
      exact ⟨_, rfl, rfl, rfl⟩

/-- C15: starting from a client without subscriptions (a new client, before or
after its `Connect`), after every sequence of `Subscibe` and `Unsubscribe`
calls the keys of `Subscription` are exactly the topics that some call
subscribed and no later call unsubscribed; and a `tyrReconnect` whose
connection attempt succeeds hands to the new connection one subscribe request
whose args are exactly those topics, each once, in the order of the range
over the map, and no request when there is no such topic; the set of
subscriptions is the same afterwards. -/
theorem subscriptions_tracked_and_resent (c0 : WebSocketClient) (calls : List Call)
    (h0 : c0.Subscription.keys = []) :
    (∀ t : String, t ∈ (calls.foldl Call.run c0).Subscription ↔ Active calls t) ∧
    (∀ (iter : List String) (net : Network),
      iter.Perm (calls.foldl Call.run c0).Subscription.keys →
      net.Succeeds (calls.foldl Call.run c0) →
      ∃ c2 : WebSocketClient,
        (calls.foldl Call.run c0).tyrReconnect iter net = Except.ok c2 ∧
        c2.requests =
          (if iter = [] then []
            else [{ Topic := "", Typ := "", Ts := 0, Op := "subscribe", Args := iter }]) ∧
        iter.Nodup ∧ (∀ t : String, t ∈ iter ↔ Active calls t) ∧
        (∀ t : String, t ∈ c2.Subscription ↔ Active calls t)) := by
  have hact := mem_Subscription_iff_Active c0 calls h0
  refine ⟨hact, ?_⟩
  intro iter net hperm hs
  obtain ⟨c2, hc2, hreq, hsub⟩ := tyrReconnect_of_succeeds _ iter net hs
  have hmem : ∀ t : String, t ∈ iter ↔ Active calls t := by
    intro t
    rw [hperm.mem_iff, ← AList.mem_keys, hact]
  refine ⟨c2, hc2, hreq, hperm.nodup_iff.2 (AList.keys_nodup _), hmem, ?_⟩
  intro t
  rw [hsub, mem_foldl_insert_true, hact, hmem]
  tauto

theorem testClient_keys : testClient.Subscription.keys = ["trade.BTCUSDT"] := by
  decide

/-- C15 on the calls of `TestWebSocketClient`: after subscribing to the order
book, unsubscribing from it and subscribing to the trades, a reconnection
resends the subscription to the trades alone. -/
theorem subscriptions_tracked_and_resent_witness :
    ((NewWebSocketClient sampleConfig true).Connect sampleNetwork).1.Subscription.keys = [] ∧
    (Active testCalls "trade.BTCUSDT" ∧ ¬ Active testCalls "orderbook.1.BTCUSDT") ∧
    ∃ c2 : WebSocketClient,
      testClient.tyrReconnect ["trade.BTCUSDT"] sampleNetwork = Except.ok c2 ∧
      c2.requests =
        [{ Topic := "", Typ := "", Ts := 0, Op := "subscribe", Args := ["trade.BTCUSDT"] }] := by
  have h := subscriptions_tracked_and_resent
    ((NewWebSocketClient sampleConfig true).Connect sampleNetwork).1 testCalls (by decide)
  refine ⟨by decide, ⟨(h.1 _).1 (by decide), fun ha => ?_⟩, ?_⟩
  · have := (h.1 _).2 ha
    revert this
    decide
  · obtain ⟨c2, hc2, hreq, _⟩ := h.2 ["trade.BTCUSDT"] sampleNetwork
      (by show ["trade.BTCUSDT"].Perm testClient.Subscription.keys
          rw [testClient_keys])
      ⟨rfl, Or.inl rfl, rfl⟩
    exact ⟨c2, hc2, hreq⟩

end socket
